import Mathlib

/-!
Verification of the AI website-generator pipeline (backend of the
Dynamic Website Generator repository).

This file gives a shallow embedding, in Lean 4, of the deterministic parts of
the pipeline that the specification's claims are about:

* the data filter (`filterData` in `data-filter.ts`),
* the intent analyzer's post-processing and heuristic fallback
  (`analyzeIntent` in `intent-analyzer.ts`),
* the data-source verifier (`verifyDataSource` in `data-source-verifier.ts`),
* the architecture planner's post-processing (`planArchitecture` in
  `architecture-planner.ts`),
* the website validator's control flow (`validateAndFixWebsite` in
  `website-validator.ts`),
* the deployer's output handling (`deployToVercel` in `vercel-deployer.ts`),
* the JSON serialize/parse round trip used for each job's `data.json`.

Modelling conventions:

* JavaScript values flowing through `filters` / parsed model JSON are embedded
  as the inductive `JsVal`.  JavaScript numbers are modelled as `Int` (the
  datasets and limits the pipeline manipulates are integral); `undefined` is
  `Option.none` at the points where it can occur.
* JavaScript strings are Lean `String`s; `toLowerCase`/`toUpperCase` are
  modelled on the ASCII range (the only range the source's keyword tables
  use), and `trim` strips ASCII whitespace.
* Model calls, network failures and `JSON.parse` of free-form model text are
  environment-determined; they are embedded as explicit `Except`/`Option`
  inputs to the functions that consume them, exactly at the points where the
  source code receives them.  A `.error` input is a thrown exception.
* Operations that can throw a `TypeError` in the source (calling a string
  method on a non-string filter value) return `Except Unit _`.
-/

namespace DWG

/-! ## Generic JavaScript string helpers -/

/-- Substring test on character lists: `containsChars hay needle` is the
semantics of JavaScript `hay.includes(needle)`. -/
def containsChars (hay needle : List Char) : Bool :=
  match hay with
  | [] => needle.isEmpty
  | c :: t => needle.isPrefixOf (c :: t) || containsChars t needle

/-- JavaScript `s.includes(sub)`. -/
def strIncludes (s sub : String) : Bool :=
  containsChars s.data sub.data

/-- JavaScript `s.toLowerCase()` (ASCII range). -/
def strToLower (s : String) : String :=
  ⟨s.data.map Char.toLower⟩

/-- JavaScript `s.toUpperCase()` (ASCII range). -/
def strToUpper (s : String) : String :=
  ⟨s.data.map Char.toUpper⟩

/-- ASCII whitespace, as recognised by JavaScript `trim` and `\s`. -/
def isJsWs (c : Char) : Bool :=
  c = ' ' || c = '\t' || c = '\n' || c = '\r' || c = Char.ofNat 11 || c = Char.ofNat 12

/-- Strip leading and trailing whitespace from a character list. -/
def trimChars (l : List Char) : List Char :=
  ((l.dropWhile isJsWs).reverse.dropWhile isJsWs).reverse

/-- JavaScript `s.trim()`. -/
def strTrim (s : String) : String :=
  ⟨trimChars s.data⟩

/-- The decimal digit character for `n < 10`. -/
def digitChar (n : Nat) : Char :=
  Char.ofNat (48 + n)

/-- Decimal printing loop; the fuel argument (structurally decreasing, and
always sufficient at `n + 1`) bounds the number of divisions by ten. -/
def natToCharsFuel : Nat → Nat → List Char
  | 0, _ => []
  | fuel + 1, n =>
    if n < 10 then [digitChar n]
    else natToCharsFuel fuel (n / 10) ++ [digitChar (n % 10)]

/-- Decimal digits of a natural number, most significant first. -/
def natToChars (n : Nat) : List Char :=
  natToCharsFuel (n + 1) n

/-- Decimal printing of an integer (JavaScript `String(n)` for integral `n`). -/
def intToChars (n : Int) : List Char :=
  if n < 0 then '-' :: natToChars (-n).toNat else natToChars n.toNat

/-- Numeric value of a list of decimal digit characters. -/
def digitsToNat (l : List Char) : Nat :=
  l.foldl (fun acc c => 10 * acc + (c.toNat - 48)) 0

/-- The value of the maximal leading run of decimal digits, if nonempty. -/
def leadDigits (l : List Char) : Option Nat :=
  let d := l.takeWhile Char.isDigit
  if d.isEmpty then none else some (digitsToNat d)

/-- JavaScript `parseInt(s, 10)`: skip whitespace, optional sign, then the
maximal leading digit run; `none` models `NaN`. -/
def parseIntChars (l0 : List Char) : Option Int :=
  let l := l0.dropWhile isJsWs
  match l with
  | [] => none
  | c :: t =>
    if c = '-' then (leadDigits t).map (fun n => -(n : Int))
    else if c = '+' then (leadDigits t).map (fun n => (n : Int))
    else (leadDigits (c :: t)).map (fun n => (n : Int))

/-! ## JavaScript values -/

/-- JavaScript values as they occur in parsed model JSON and in filter
mappings.  Numbers are modelled as integers. -/
inductive JsVal : Type where
  | num (n : Int)
  | str (s : String)
  | bool (b : Bool)
  | null
  | arr (elems : List JsVal)
  | obj (fields : List (String × JsVal))
deriving Repr

mutual

/-- JavaScript `String(v)` coercion. -/
def jsToString : JsVal → String
  | .num n => ⟨intToChars n⟩
  | .str s => s
  | .bool true => "true"
  | .bool false => "false"
  | .null => "null"
  | .arr l => jsArrToString l
  | .obj _ => "[object Object]"

/-- `Array.prototype.toString`: elements stringified and comma-joined, with
`null`/`undefined` elements contributing the empty string. -/
def jsArrToString : List JsVal → String
  | [] => ""
  | [JsVal.null] => ""
  | [v] => jsToString v
  | JsVal.null :: rest => "," ++ jsArrToString rest
  | v :: rest => jsToString v ++ "," ++ jsArrToString rest

end

/-- JavaScript `ToNumber` on a string: whole-string decimal integer parse,
empty/whitespace-only strings are `0`; `none` models `NaN`. -/
def strToNumberChars (l : List Char) : Option Int :=
  let t := trimChars l
  match t with
  | [] => some 0
  | c :: rest =>
    if c = '-' then
      if rest ≠ [] && rest.all Char.isDigit then some (-(digitsToNat rest : Int)) else none
    else if c = '+' then
      if rest ≠ [] && rest.all Char.isDigit then some ((digitsToNat rest : Int)) else none
    else
      if (c :: rest).all Char.isDigit then some ((digitsToNat (c :: rest) : Int)) else none

/-- JavaScript `ToNumber` coercion; `none` models `NaN`. -/
def toNumber : JsVal → Option Int
  | .num n => some n
  | .str s => strToNumberChars s.data
  | .bool b => some (if b then 1 else 0)
  | .null => some 0
  | .arr l => strToNumberChars (jsArrToString l).data
  | .obj _ => none

/-- JavaScript truthiness of a value. -/
def truthyV : JsVal → Bool
  | .num n => decide (n ≠ 0)
  | .str s => !s.data.isEmpty
  | .bool b => b
  | .null => false
  | .arr _ => true
  | .obj _ => true

/-- JavaScript `s.startsWith(pre)`. -/
def strStartsWith (s pre : String) : Bool :=
  pre.data.isPrefixOf s.data

/-- JavaScript `s.endsWith(suffix)`. -/
def strEndsWith (s suffix : String) : Bool :=
  suffix.data.isSuffixOf s.data

/-- JavaScript truthiness of a possibly-`undefined` value. -/
def truthy : Option JsVal → Bool
  | none => false
  | some v => truthyV v

/-- JavaScript `a || b` on possibly-`undefined` values. -/
def jsOr (a b : Option JsVal) : Option JsVal :=
  if truthy a then a else b

/-- `String(v)` where `v` may be `undefined`. -/
def jsToStringU : Option JsVal → String
  | none => "undefined"
  | some v => jsToString v

/-! ## Data-source verifier (`verifyDataSource`, data-source-verifier.ts)

The model reply is the text of the model message (`msg.content[0].text`);
`.error` models a thrown network/API error. -/

/-- The six known collection names, as passed by the server to
`verifyDataSource`. -/
def knownSources : List String :=
  ["movies", "companies", "products", "actors", "directors", "testimonials"]

/-- `verifyDataSource` from data-source-verifier.ts: keep the detected source
when the model agrees (or echoes it), otherwise take the first available
source occurring case-insensitively in the reply, otherwise keep the detected
source; any thrown error also keeps the detected source. -/
def verifyDataSource (detectedSource : String) (availableSources : List String)
    (reply : Except Unit String) : String :=
  match reply with
  | .error _ => detectedSource
  | .ok replyText =>
    let text := strTrim replyText
    if strIncludes (strToUpper text) "CORRECT" || strToLower text == strToLower detectedSource then
      detectedSource
    else
      match availableSources.find? (fun source => strIncludes (strToLower text) (strToLower source)) with
      | some source => source
      | none => detectedSource

/-! ## Keyword data-source detector (`detectDataSource`, data-filter.ts) -/

/-- An apostrophe character, used by some keyword phrases. -/
def apos : String :=
  ⟨[Char.ofNat 39]⟩

/-- `detectDataSource` from data-filter.ts: the ordered keyword precedence
list over the lowercased intent. -/
def detectDataSource (intent : String) : String :=
  let li := strToLower intent
  let inc := fun (k : String) => strIncludes li k
  if inc "movie" || inc "movies" || inc "film" || inc "films" || inc "cinema" ||
      (inc "browse" && inc "movie") || (inc "action" && (inc "movie" || inc "genre")) ||
      (inc "genre" && inc "movie") then "movies"
  else if inc "testimonial" || inc "testimonials" || (inc "review" && !inc "movie") ||
      inc "customer feedback" || inc "customer review" then "testimonials"
  else if inc "actor" || inc "actress" || inc "movie star" || inc "celebrity actor" then "actors"
  else if inc "director" || inc "filmmaker" || inc "directed by" then "directors"
  else if inc "company website" || inc "business website" || inc "our company" ||
      inc "our business" || inc ("company" ++ apos ++ "s mission") ||
      inc ("company" ++ apos ++ "s vision") || inc "our mission" || inc "our vision" ||
      inc "our services" || inc ("company" ++ apos ++ "s services") then "companies"
  else if (inc "company" || inc "business" || inc "corporate") &&
      (inc "mission" || inc "vision" || inc "about" || inc "our") then "companies"
  else if (inc " product" || inc "products") && !inc "movie" && !inc "film" then
    (if inc "company" || inc "business" then
      (if inc "products for" || inc "show me products" then "products" else "companies")
     else "products")
  else if inc "company" || inc "business" || inc "corporate" || inc "mission" ||
      inc "vision" || inc "about us" then "companies"
  else if !inc "movie" && !inc "film" &&
      (inc "trial" || inc "sign up" || inc "software" || inc "app" ||
       inc "service" || inc "tool") then "products"
  else "movies"

/-! ## Intent analyzer (`analyzeIntent`, intent-analyzer.ts)

The model reply, after fence stripping and `JSON.parse`, is a JavaScript
object; the analyzer reads its `dataSource`, `filters` and `limit`
properties.  `ParsedIntent` carries exactly those three property lookups
(`none` = property absent).  A reply that failed to parse (or a network
error) is the `.error` case of `analyzeIntent`'s `reply` argument and takes
the heuristic fallback path. -/

/-- The result shape of the analyzer: data source, filter mapping, limit. -/
structure IntentAnalysisResult where
  dataSource : String
  filters : List (String × JsVal)
  limit : Int
deriving Repr

/-- The three properties the analyzer reads off the parsed model JSON. -/
structure ParsedIntent where
  dataSource : Option JsVal
  filters : Option JsVal
  limit : Option JsVal

/-- The own enumerable properties of a value, as JavaScript object spread and
property access see them: objects give their fields, arrays their indexed
elements, primitives nothing. -/
def jsObjFields : JsVal → Option (List (String × JsVal))
  | .obj f => some f
  | .arr l => some (l.enum.map (fun p => (⟨natToChars p.1⟩, p.2)))
  | _ => none

/-- The valid data sources checked by the analyzer. -/
def validSources : List String :=
  ["movies", "companies", "products", "actors", "directors", "testimonials"]

/-- The success path of `analyzeIntent`: post-processing applied to the parsed
model JSON (limit clamping, the show-all bump, the limit-1 guard, data-source
validation, hallucinated-location removal). -/
def analyzeIntentOk (userIntent : String) (parsed : ParsedIntent) : IntentAnalysisResult :=
  let filters : List (String × JsVal) :=
    match parsed.filters with
    | some v => if truthyV v then (jsObjFields v).getD [] else []
    | none => []
  let limit : Int :=
    match parsed.limit with
    | some (.num n) => if 0 < n ∧ n ≤ 500 then n else 100
    | _ => 100
  let userIntentLower := strToLower userIntent
  let inc := fun (k : String) => strIncludes userIntentLower k
  let limit :=
    if (inc "all" || inc "all data" || inc "all companies" || inc "all products" ||
        inc "show all" || inc "all services") && limit < 50 then 100
    else limit
  let limit :=
    if limit = 1 && !inc "one" && !inc "single" && !inc "just one" then 100
    else limit
  let dataSource :=
    match parsed.dataSource with
    | some (.str s) => if s ∈ validSources then s else detectDataSource userIntent
    | _ => detectDataSource userIntent
  let filters :=
    if truthy (filters.lookup "location") then
      let locationValue := strToLower (jsToStringU (filters.lookup "location"))
      let hasLocationKeywords := inc "in " || inc "from " || inc "located" || inc "at "
      if !inc locationValue && !hasLocationKeywords then
        filters.filter (fun kv => kv.1 ≠ "location")
      else filters
    else filters
  { dataSource := dataSource, filters := filters, limit := limit }

/-- Word characters, JavaScript regex `\w` = `[A-Za-z0-9_]`. -/
def isWordChar (c : Char) : Bool :=
  c.isAlpha || c.isDigit || c = '_'

/-- Match the year token `(19|20)\d{2}` at the head of the list, requiring a
trailing word boundary; returns its numeric value. -/
def yearAt : List Char → Option Nat
  | c1 :: c2 :: c3 :: c4 :: rest =>
    if ((c1 = '1' && c2 = '9') || (c1 = '2' && c2 = '0')) && c3.isDigit && c4.isDigit &&
        (match rest with | [] => true | c :: _ => !isWordChar c) then
      some (digitsToNat [c1, c2, c3, c4])
    else none
  | _ => none

/-- Leftmost-match scan for `\b(19|20)\d{2}\b`; `prevIsWord` tracks whether
the previous character was a word character (for the leading boundary). -/
def findYearAux (prevIsWord : Bool) : List Char → Option Nat
  | [] => none
  | c :: rest =>
    if !prevIsWord then
      match yearAt (c :: rest) with
      | some y => some y
      | none => findYearAux (isWordChar c) rest
    else findYearAux (isWordChar c) rest

/-- First year token of the text, per the fallback regex `\b(19|20)\d{2}\b`. -/
def findFirstYear (l : List Char) : Option Nat :=
  findYearAux false l

/-- The fallback genre vocabulary, in source order. -/
def fallbackGenres : List String :=
  ["action", "sci-fi", "science fiction", "drama", "comedy", "horror"]

/-- Greedy `[A-Z][a-z]+` with the `i` flag: the maximal leading letter run,
required to have length at least 2; returns (run, remainder). -/
def wordGe2 (l : List Char) : Option (List Char × List Char) :=
  let w := l.takeWhile Char.isAlpha
  if w.length ≥ 2 then some (w, l.drop w.length) else none

/-- The capture group `([A-Z][a-z]+(?:\s+[A-Z][a-z]+)?(?:\s*,\s*[A-Z][a-z]+)?)`
of the fallback location regex, matched at the head of the list (case folded
by the `i` flag).  Returns the captured characters and the remainder. -/
def captureGroup (l : List Char) : Option (List Char × List Char) :=
  match wordGe2 l with
  | none => none
  | some (w1, r1) =>
    let seg2 :=
      let ws := r1.takeWhile isJsWs
      if ws.isEmpty then ([], r1)
      else
        match wordGe2 (r1.drop ws.length) with
        | some (w2, r) => (ws ++ w2, r)
        | none => (([] : List Char), r1)
    let r2 := seg2.2
    let seg3 :=
      let ws1 := r2.takeWhile isJsWs
      match r2.drop ws1.length with
      | c :: t =>
        if c = ',' then
          let ws2 := t.takeWhile isJsWs
          match wordGe2 (t.drop ws2.length) with
          | some (w3, r) => (ws1 ++ [','] ++ ws2 ++ w3, r)
          | none => (([] : List Char), r2)
        else (([] : List Char), r2)
      | [] => (([] : List Char), r2)
    some (w1 ++ seg2.1 ++ seg3.1, seg3.2)

/-- Try the first location pattern
`(?:in|from|at|located in)\s+([A-Z][a-z]+...)` at the head of the list; the
four alternatives are mutually exclusive at any one position, so JavaScript's
ordered alternation reduces to trying each in turn. -/
def locPattern1At (l : List Char) : Option (List Char) :=
  let tryKw := fun (kw : String) =>
    if kw.data.isPrefixOf l then
      let r := l.drop kw.data.length
      let ws := r.takeWhile isJsWs
      if ws.isEmpty then none
      else (captureGroup (r.drop ws.length)).map Prod.fst
    else none
  ((tryKw "in").orElse fun _ => (tryKw "from").orElse fun _ =>
    (tryKw "at").orElse fun _ => tryKw "located in")

/-- Leftmost match of the first location pattern. -/
def findLocPattern1 : List Char → Option (List Char)
  | [] => none
  | c :: rest =>
    match locPattern1At (c :: rest) with
    | some cap => some cap
    | none => findLocPattern1 rest

/-- The fixed city list of the second location pattern, in source order. -/
def cityList : List String :=
  ["Delhi", "Mumbai", "Bangalore", "Pune", "Hyderabad", "Chennai", "Kolkata",
   "New York", "San Francisco", "London", "Paris"]

/-- Leftmost case-insensitive match of the city-list pattern; the matched text
(already lowercased by the caller) is returned. -/
def findLocPattern2 : List Char → Option (List Char)
  | [] => none
  | c :: rest =>
    match cityList.find? (fun city => (strToLower city).data.isPrefixOf (c :: rest)) with
    | some city => some ((c :: rest).take (strToLower city).data.length)
    | none => findLocPattern2 rest

/-- The heuristic fallback path of `analyzeIntent`, taken on any parse or
network failure: year by regex, genre by vocabulary substring, location by
the two location patterns, limit fixed at 100, data source from the keyword
detector. -/
def analyzeIntentFallback (userIntent : String) : IntentAnalysisResult :=
  let intent := strToLower userIntent
  let year := findFirstYear intent.data
  let genre :=
    (fallbackGenres.find? (fun g => strIncludes intent g)).map
      (fun g => if g = "science fiction" then "sci-fi" else g)
  let location :=
    match findLocPattern1 intent.data with
    | some cap => some (⟨cap⟩ : String)
    | none => (findLocPattern2 intent.data).map (fun cap => (⟨cap⟩ : String))
  let f0 : List (String × JsVal) :=
    match year with
    | some y => if y ≠ 0 then [("year", JsVal.num y)] else []
    | none => []
  let f1 := f0 ++
    (match genre with
     | some g => if g ≠ "" then [("genre", JsVal.str g)] else []
     | none => [])
  let f2 := f1 ++
    (match location with
     | some loc => if loc ≠ "" then [("location", JsVal.str loc)] else []
     | none => [])
  { dataSource := detectDataSource userIntent, filters := f2, limit := 100 }

/-- `analyzeIntent` from intent-analyzer.ts, as a function of the parsed model
reply: the success path applies the post-processing invariants, any thrown
error (network failure or unparseable reply) takes the heuristic fallback. -/
def analyzeIntent (userIntent : String) (reply : Except Unit ParsedIntent) :
    IntentAnalysisResult :=
  match reply with
  | .ok parsed => analyzeIntentOk userIntent parsed
  | .error _ => analyzeIntentFallback userIntent

/-! ## Dataset filter (`filterData`, data-filter.ts)

`loadData` reads the collection's JSON file from disk; the loaded collection
is passed here as the `allData` argument, and the rest of `filterData` is
embedded verbatim.  Because the object spread `...filters` in the source's
destructuring overrides the `typeof`-guarded fields, each of
year/genre/location/category/limit is simply the raw `filters` property when
present; `otherFilters` is every other key.  String methods invoked on
non-string filter values throw a `TypeError` in JavaScript; those operations
live in `Except Unit`. -/

/-- A dataset record: an untyped key-value object. -/
def DataItem : Type :=
  List (String × JsVal)

/-- Property access on a dataset record. -/
def itemField (item : DataItem) (k : String) : Option JsVal :=
  item.lookup k

/-- The five destructured filter keys. -/
def fiveKeys : List String :=
  ["year", "genre", "location", "category", "limit"]

/-- The `...otherFilters` rest object: every filter key other than the five
destructured ones, in insertion order. -/
def restFilters (filters : List (String × JsVal)) : List (String × JsVal) :=
  filters.filter (fun kv => !(fiveKeys.contains kv.1))

/-- Calling `.toLowerCase()` on a value: succeeds only on strings, any other
receiver throws a `TypeError`. -/
def jsMethodToLower (v : JsVal) : Except Unit String :=
  match v with
  | .str s => .ok (strToLower s)
  | _ => .error ()

/-- `itemYearNum` of the movies year filter: `parseInt` of the first four
characters of `String(item.Year || item.year || "")`. -/
def movieItemYearNum (item : DataItem) : Option Int :=
  let itemYear := jsOr (itemField item "Year") (itemField item "year")
  let yearStr := jsToStringU (jsOr itemYear (some (.str "")))
  parseIntChars (yearStr.data.take 4)

/-- `String(item.Genre || item.genre || "").toLowerCase()`. -/
def movieItemGenreLower (item : DataItem) : String :=
  strToLower (jsToStringU (jsOr (jsOr (itemField item "Genre") (itemField item "genre")) (some (.str ""))))

/-- Strict equality `itemYearNum === year` where the left side is a
number-or-NaN and the right is the raw filter value. -/
def strictEqNum (x : Option Int) (v : JsVal) : Bool :=
  match x, v with
  | some n, .num m => decide (n = m)
  | _, _ => false

/-- The movies branch of `filterData`: year filter then genre filter. -/
def filterMovies (yearV genreV : Option JsVal) (data : List DataItem) :
    Except Unit (List DataItem) := do
  let d1 :=
    if truthy yearV then
      data.filter (fun item => strictEqNum (movieItemYearNum item) (yearV.getD .null))
    else data
  if truthy genreV then do
    let gLower ← jsMethodToLower (genreV.getD .null)
    pure (d1.filter (fun item => strIncludes (movieItemGenreLower item) gLower))
  else pure d1

/-- `String(item.location || "").toLowerCase()`. -/
def itemLocLower (item : DataItem) : String :=
  strToLower (jsToStringU (jsOr (itemField item "location") (some (.str ""))))

/-- The companies branch of `filterData`: location filter (string methods on
the raw value) then industry filter. -/
def filterCompanies (locV industryV : Option JsVal) (data : List DataItem) :
    Except Unit (List DataItem) := do
  let d1 ←
    if truthy locV then
      match locV.getD .null with
      | .str s =>
        if strTrim s ≠ "" then
          let locLower := strTrim (strToLower s)
          pure (data.filter (fun item => strIncludes (itemLocLower item) locLower))
        else pure data
      | _ => Except.error ()
    else pure data
  match industryV with
  | some (.str s) =>
    if s ≠ "" then
      pure (d1.filter (fun item =>
        strIncludes (strToLower (jsToStringU (jsOr (itemField item "industry") (some (.str "")))))
          (strToLower s)))
    else pure d1
  | _ => pure d1

/-- `String(item.category || "").toLowerCase()`. -/
def productItemCatLower (item : DataItem) : String :=
  strToLower (jsToStringU (jsOr (itemField item "category") (some (.str ""))))

/-- The personas filter predicate: some persona (or the stringified non-array
value) contains the filter text case-insensitively. -/
def personasMatch (pFilter : String) (item : DataItem) : Bool :=
  match (jsOr (itemField item "personas") (some (.arr []))).getD .null with
  | .arr l => l.any (fun p => strIncludes (strToLower (jsToString p)) pFilter)
  | v => strIncludes (strToLower (jsToString v)) pFilter

/-- `Array.prototype.join(" ")`: elements stringified and space-joined, with
`null` elements contributing the empty string. -/
def joinSpace : List JsVal → String
  | [] => ""
  | [JsVal.null] => ""
  | [v] => jsToString v
  | JsVal.null :: rest => " " ++ joinSpace rest
  | v :: rest => jsToString v ++ " " ++ joinSpace rest

/-- The business-context text of a product: personas and use cases flattened
into one lowercased string. -/
def businessAllText (item : DataItem) : String :=
  let personas := (jsOr (itemField item "personas") (some (.arr []))).getD .null
  let useCases := (jsOr (itemField item "useCases") (some (.arr []))).getD .null
  let toList := fun (v : JsVal) => match v with | .arr l => l | w => [w]
  strToLower (joinSpace (toList personas ++ toList useCases))

/-- The products branch of `filterData`: category, personas, then
business-context filters. -/
def filterProducts (catV personasV businessV : Option JsVal) (data : List DataItem) :
    Except Unit (List DataItem) := do
  let d1 ←
    if truthy catV then do
      let catLower ← jsMethodToLower (catV.getD .null)
      pure (data.filter (fun item => strIncludes (productItemCatLower item) catLower))
    else pure data
  let d2 :=
    if truthy personasV then
      d1.filter (personasMatch (strToLower (jsToStringU personasV)))
    else d1
  let isBiz := truthy businessV ||
    (match personasV with
     | some (.str s) => strIncludes (strToLower s) "business"
     | _ => false)
  if isBiz then
    pure (d2.filter (fun item => strIncludes (businessAllText item) "business"))
  else pure d2

/-- The actors/directors branch of `filterData`: location filter. -/
def filterByLocation (locV : Option JsVal) (data : List DataItem) :
    Except Unit (List DataItem) := do
  if truthy locV then do
    let locLower ← jsMethodToLower (locV.getD .null)
    pure (data.filter (fun item => strIncludes (itemLocLower item) locLower))
  else pure data

/-- Strict equality `itemValue === value` for a non-string filter value;
arrays and objects compare by reference, and the filter value is never the
same reference as a loaded dataset value. -/
def strictEqV (a : Option JsVal) (b : JsVal) : Bool :=
  match a, b with
  | some (.num n), .num m => decide (n = m)
  | some (.bool x), .bool y => x == y
  | some .null, .null => true
  | some (.str s), .str t => s == t
  | _, _ => false

/-- One step of the generic declared-filter loop. -/
def otherPred (k : String) (v : JsVal) (item : DataItem) : Bool :=
  match v with
  | .str s =>
    strIncludes (strToLower (jsToStringU (jsOr (itemField item k) (some (.str "")))))
      (strToLower s)
  | _ => strictEqV (itemField item k) v

/-- The `Object.keys(otherFilters).forEach` loop: every remaining declared
filter key, applied in insertion order, skipping `null` values. -/
def applyOtherFilters (of : List (String × JsVal)) (data : List DataItem) : List DataItem :=
  of.foldl
    (fun d kv =>
      match kv.2 with
      | .null => d
      | v => d.filter (otherPred kv.1 v))
    data

/-- The whole filtering pipeline of `filterData` before the limit step: the
collection-specific branch followed by the generic declared-filter loop. -/
def applyAllFilters (dataSource : String) (filters : List (String × JsVal))
    (allData : List DataItem) : Except Unit (List DataItem) := do
  let yearV := filters.lookup "year"
  let genreV := filters.lookup "genre"
  let locV := filters.lookup "location"
  let catV := filters.lookup "category"
  let of := restFilters filters
  let d ←
    if dataSource = "movies" then filterMovies yearV genreV allData
    else if dataSource = "companies" then filterCompanies locV (of.lookup "industry") allData
    else if dataSource = "products" then
      filterProducts catV (filters.lookup "personas") (filters.lookup "business") allData
    else if dataSource = "actors" || dataSource = "directors" then filterByLocation locV allData
    else pure allData
  pure (applyOtherFilters of d)

/-- `arr.slice(0, v)` element count: `ToIntegerOrInfinity` of the bound, with
NaN as 0 and negative bounds relative to the end. -/
def sliceEnd (len : Nat) (v : JsVal) : Nat :=
  match toNumber v with
  | none => 0
  | some n => if n < 0 then (if (len : Int) + n < 0 then 0 else ((len : Int) + n).toNat) else min n.toNat len

/-- `len > v` with JavaScript numeric coercion of the right side; comparisons
against NaN are false. -/
def jsGtNum (len : Nat) (v : JsVal) : Bool :=
  match toNumber v with
  | none => false
  | some n => decide ((len : Int) > n)

/-- `filterData` from data-filter.ts (with the loaded collection passed as
`allData`): apply all filters, truncate to the limit, and if the result is
empty while the collection is not, discard the filters and return up to
`limit || 100` unfiltered records. -/
def filterData (dataSource : String) (filters : List (String × JsVal))
    (allData : List DataItem) : Except Unit (List DataItem) := do
  let limitV := filters.lookup "limit"
  let filtered ← applyAllFilters dataSource filters allData
  let filtered :=
    if truthy limitV && jsGtNum filtered.length (limitV.getD .null) then
      filtered.take (sliceEnd filtered.length (limitV.getD .null))
    else filtered
  if filtered.length = 0 && allData.length > 0 then
    pure (allData.take (sliceEnd allData.length ((jsOr limitV (some (.num 100))).getD .null)))
  else pure filtered

/-! ## Architecture planner (`planArchitecture`, architecture-planner.ts)

The model reply, after fence stripping and `JSON.parse`, either fails
(malformed JSON, or a parsed value without a `files` array — both throw and
reach the catch block) or yields the `files` array of entries.  Entries are
objects whose `fileName`/`purpose`/`kind` properties may be of any type or
absent.  All post-processing of the parsed reply is embedded verbatim. -/

/-- One entry of the parsed `files` array: its three property lookups. -/
structure RawEntry where
  fileName : Option JsVal
  purpose : Option JsVal
  kind : Option JsVal
deriving Repr

/-- A planned file after coercion. -/
structure PlannedFile where
  fileName : String
  purpose : String
  kind : String
deriving Repr, DecidableEq

/-- The architecture plan. -/
structure ArchitecturePlan where
  files : List PlannedFile
deriving Repr

/-- First keyword of the alternation that matches at the head of the list
with a trailing word boundary; returns the match length. -/
def matchKeywordAt (kws : List String) (l : List Char) : Option Nat :=
  kws.findSome? (fun kw =>
    if kw.data.isPrefixOf l &&
        (match l.drop kw.data.length with | [] => true | c :: _ => !isWordChar c) then
      some kw.data.length
    else none)

/-- Whether `\b(kw1|kw2|...)\b` matches anywhere in the text (all keywords
start and end with word characters, so the leading boundary is just "previous
character is not a word character"). -/
def hasWordMatchAux (kws : List String) (prevIsWord : Bool) : List Char → Bool
  | [] => false
  | c :: rest =>
    (!prevIsWord && (matchKeywordAt kws (c :: rest)).isSome) ||
      hasWordMatchAux kws (isWordChar c) rest

/-- `text.match(/\b(...)\b/) !== null`. -/
def hasWordMatch (kws : List String) (l : List Char) : Bool :=
  hasWordMatchAux kws false l

/-- Number of matches of `/\b(...)\b/g`: leftmost-first, non-overlapping,
first alternative wins at each position, scanning resumes after each match.
The fuel argument (structurally decreasing, always sufficient at
`l.length + 1` since every step consumes at least one character) bounds the
number of scan steps. -/
def countWordAux (kws : List String) : Nat → Bool → List Char → Nat
  | 0, _, _ => 0
  | fuel + 1, prevIsWord, l =>
    match l with
    | [] => 0
    | c :: rest =>
      if !prevIsWord then
        match matchKeywordAt kws (c :: rest) with
        | some k => 1 + countWordAux kws fuel true (rest.drop (k - 1))
        | none => countWordAux kws fuel (isWordChar c) rest
      else countWordAux kws fuel (isWordChar c) rest

/-- `(text.match(/\b(...)\b/g) || []).length`. -/
def countWordMatches (kws : List String) (l : List Char) : Nat :=
  countWordAux kws (l.length + 1) false l

/-- The simple-request keyword alternation. -/
def simpleKeywords : List String :=
  ["portfolio", "company", "business", "multi-page", "website", "about", "contact",
   "products", "services", "mission", "vision", "team", "testimonials"]

/-- The complex-request keyword alternation (first test). -/
def complexKeywords1 : List String :=
  ["portfolio", "company", "business", "multi-page", "website"]

/-- The complex-request page-vocabulary alternation (counted test). -/
def complexKeywords2 : List String :=
  ["about", "contact", "products", "services", "mission", "vision"]

/-- Purpose text for a force-added page. -/
def pagePurpose (page : String) : String :=
  if page = "about.html" then "About page with mission and vision"
  else if page = "browse.html" then "Browse page for products/services"
  else if page = "details.html" then "Detail pages for individual items"
  else "Contact page with location and email"

/-- The page-indicating keyword rescan of the lowercased intent. -/
def requestedPagesFor (intentLower : String) : List String :=
  let inc := fun (k : String) => strIncludes intentLower k
  ((if inc "about" || inc "mission" || inc "vision" then ["about.html"] else []) ++
   (if inc "product" || inc "service" || inc "browse" then ["browse.html"] else []) ++
   (if inc "detail" || inc "individual" then ["details.html"] else []) ++
   (if inc "contact" then ["contact.html"] else []))

/-- `f.fileName === page` on a raw entry. -/
def entryNameIs (page : String) (f : RawEntry) : Bool :=
  match f.fileName with
  | some (.str s) => s == page
  | _ => false

/-- The force-add loop: push each requested page that no current entry
already names. -/
def addMissingPages (requested : List String) (files : List RawEntry) : List RawEntry :=
  requested.foldl
    (fun fs page =>
      if fs.any (entryNameIs page) then fs
      else fs ++ [{ fileName := some (.str page), purpose := some (.str (pagePurpose page)),
                    kind := some (.str "page") }])
    files

/-- `ensureFile` from the planner: append the file unless an entry with that
name is already present. -/
def ensureFile (files : List PlannedFile) (name purpose kind : String) : List PlannedFile :=
  if files.any (fun f => f.fileName == name) then files
  else files ++ [{ fileName := name, purpose := purpose, kind := kind }]

/-- The minimal two-file fallback plan returned by the catch block. -/
def fallbackPlan : ArchitecturePlan :=
  { files :=
      [{ fileName := "index.html",
         purpose := "Home/landing page listing content with search and filters", kind := "page" },
       { fileName := "app.js",
         purpose := "Client-side interactions, search, filters, and data rendering", kind := "script" }] }

/-- `planArchitecture` from architecture-planner.ts as a function of the
parsed model reply (`none` = malformed JSON or missing `files` array, which
throws into the catch block): the complexity rescan and force-add, the
coercion map, the `.html`/`.js` filter, and the two `ensureFile` calls. -/
def planArchitecture (intent : String) (reply : Option (List RawEntry)) : ArchitecturePlan :=
  match reply with
  | none => fallbackPlan
  | some files0 =>
    let intentLower := strToLower intent
    let isSimpleRequest := !(hasWordMatch simpleKeywords intentLower.data)
    let isComplexRequest := hasWordMatch complexKeywords1 intentLower.data ||
      countWordMatches complexKeywords2 intentLower.data ≥ 2
    let files1 :=
      if !isSimpleRequest then
        let requested := requestedPagesFor intentLower
        if isComplexRequest && !requested.isEmpty then addMissingPages requested files0
        else files0
      else files0
    let mapped := files1.map (fun f =>
      ({ fileName := jsToStringU f.fileName,
         purpose := jsToStringU (jsOr f.purpose (some (.str "Generated file"))),
         kind :=
           match f.kind with
           | some (.str s) =>
             if s = "page" || s = "asset" || s = "script" || s = "style" then s else "asset"
           | _ => "asset" } : PlannedFile))
    let filtered := mapped.filter (fun f =>
      strEndsWith f.fileName ".html" || strEndsWith f.fileName ".js")
    let withIndex := ensureFile filtered "index.html"
      "Home/landing page listing content with search and filters" "page"
    let final := ensureFile withIndex "app.js"
      "Client-side interactions, search, filters, and data rendering" "script"
    { files := final }

/-- The number of plan entries carrying a given file name. -/
def countName (name : String) (files : List PlannedFile) : Nat :=
  (files.filter (fun f => f.fileName == name)).length

/-! ## Website validator (`validateAndFixWebsite`, website-validator.ts)

The whole validation step runs inside one try block; the environment a run
interacts with (the review model call composed with `JSON.parse` of its
reply, the per-file fix model calls, the file writes) is a `ValidatorWorld`.
`fixReply`/`writeResult` are indexed by how many fixes have been issued so
far.  The preparatory read of the generated files happens before the try
block and only feeds prompt text, so it does not appear in the control-flow
model. -/

/-- A left brace character. -/
def lbraceChar : Char :=
  Char.ofNat 123

/-- A right brace character. -/
def rbraceChar : Char :=
  Char.ofNat 125

/-- A backtick character. -/
def backtick : Char :=
  Char.ofNat 96

/-- A markdown fence: three backticks. -/
def fenceChars : List Char :=
  [backtick, backtick, backtick]

/-- The first fence-stripping pass, `replace(/^```[\w]*\n?/gm, "")`: at each
line start, drop a fence followed by word characters and an optional
newline. -/
def stripOpenFences (atStart : Bool) (l : List Char) : List Char :=
  match l with
  | [] => []
  | c :: rest =>
    if atStart && fenceChars.isPrefixOf (c :: rest) then
      let wlen := (((c :: rest).drop 3).takeWhile isWordChar).length
      let hasNl :=
        match (c :: rest).drop (3 + wlen) with
        | nl :: _ => nl = '\n'
        | [] => false
      stripOpenFences hasNl ((c :: rest).drop (3 + wlen + (if hasNl then 1 else 0)))
    else c :: stripOpenFences (c = '\n') rest
termination_by l.length
decreasing_by
  all_goals simp [List.length_drop]

/-- Whether a position is at a line end (end of text or before a newline),
the `$` anchor in multiline mode. -/
def lineEndAt : List Char → Bool
  | [] => true
  | c :: _ => c = '\n'

/-- The second fence-stripping pass, `replace(/\n?```$/gm, "")`: drop each
fence sitting at a line end together with the preceding newline if any. -/
def stripCloseFences (l : List Char) : List Char :=
  match l with
  | [] => []
  | c :: rest =>
    if c = '\n' && fenceChars.isPrefixOf rest && lineEndAt (rest.drop 3) then
      stripCloseFences (rest.drop 3)
    else if fenceChars.isPrefixOf (c :: rest) && lineEndAt ((c :: rest).drop 3) then
      stripCloseFences ((c :: rest).drop 3)
    else c :: stripCloseFences rest
termination_by l.length
decreasing_by
  all_goals simp at *
  all_goals omega

/-- The fix-reply cleanup: trim, then if a fence occurs anywhere, run both
fence-stripping passes and trim again. -/
def cleanGeneratedCode (code : String) : String :=
  let trimmed := strTrim code
  if containsChars trimmed.data fenceChars then
    strTrim ⟨stripCloseFences (stripOpenFences true trimmed.data)⟩
  else trimmed

/-- One issue reported by the review model. -/
structure ValidationIssue where
  fileName : String
  issue : String
  severity : String
  fix : String
deriving Repr, DecidableEq

/-- The validator's result. -/
structure ValidationResult where
  hasIssues : Bool
  issues : List ValidationIssue
  fixedFiles : List String
deriving Repr, DecidableEq

/-- The environment of one validation run.  `reviewOutcome` is the review
model call composed with fence stripping and `JSON.parse`: `.error` when the
call or the parse throws, `.ok none` when the parsed value is not an array
(which the source turns into a thrown error), `.ok (some issues)` otherwise.
`fixReply k`/`writeResult k content` are the k-th fix model call and the k-th
file write (of the cleaned content); `.error` models a throw. -/
structure ValidatorWorld where
  reviewOutcome : Except Unit (Option (List ValidationIssue))
  fixReply : Nat → Except Unit String
  writeResult : Nat → String → Except Unit Unit

/-- The per-issue fix loop: every error-severity issue naming a generated
file triggers a fix call and a write of the cleaned reply; other issues are
skipped.  Any throw aborts the loop. -/
def runFixLoop (w : ValidatorWorld) (generatedFiles : List String) :
    List ValidationIssue → Nat → List String → Except Unit (List String)
  | [], _, fixedFiles => .ok fixedFiles
  | issue :: rest, k, fixedFiles =>
    if issue.severity = "error" then
      if generatedFiles.contains issue.fileName then do
        let fixedCode ← w.fixReply k
        let _ ← w.writeResult k (cleanGeneratedCode fixedCode)
        runFixLoop w generatedFiles rest (k + 1) (fixedFiles ++ [issue.fileName])
      else runFixLoop w generatedFiles rest k fixedFiles
    else runFixLoop w generatedFiles rest k fixedFiles

/-- The body of the validator's try block. -/
def runValidation (w : ValidatorWorld) (generatedFiles : List String) :
    Except Unit ValidationResult := do
  let parsed ← w.reviewOutcome
  match parsed with
  | none => Except.error ()
  | some issues => do
    let fixedFiles ← runFixLoop w generatedFiles issues 0 []
    pure { hasIssues := decide (issues.length > 0), issues := issues, fixedFiles := fixedFiles }

/-- The result returned when the catch block swallows an exception. -/
def noIssuesResult : ValidationResult :=
  { hasIssues := false, issues := [], fixedFiles := [] }

/-- `validateAndFixWebsite` from website-validator.ts: the try body, with any
thrown exception swallowed into the no-issues result. -/
def validateAndFixWebsite (w : ValidatorWorld) (generatedFiles : List String) :
    ValidationResult :=
  match runValidation w generatedFiles with
  | .ok r => r
  | .error _ => noIssuesResult

/-! ## Deployer (`deployToVercel`, vercel-deployer.ts)

The CLI invocation is the `ExecOutcome` input: `.ok stdout stderr` for a zero
exit, `.err message stdout stderr` for a non-zero exit (the promisified exec
rejection, whose error object carries the captured streams — `none` when a
stream property is absent).  The `vercel.json` descriptor write is a pure
side effect and does not appear.  URL extraction follows the source's
regexes. -/

/-- The deployer's result. -/
structure DeploymentResult where
  success : Bool
  deployedUrl : Option String
  error : Option String
deriving Repr, DecidableEq

/-- Outcome of the `execAsync` call. -/
inductive ExecOutcome where
  | ok (stdout stderr : String)
  | err (message : String) (stdout stderr : Option String)

/-- Case-insensitive literal prefix match (the keyword given lowercased). -/
def ciIsPrefix : List Char → List Char → Bool
  | [], _ => true
  | _ :: _, [] => false
  | k :: ks, c :: cs => k = Char.toLower c && ciIsPrefix ks cs

/-- Length of the fixed part of an `https?://err.sh/` match at this
position. -/
def errShFixedLen (l : List Char) : Option Nat :=
  if "http".data.isPrefixOf l then
    let r := l.drop 4
    if "s://err.sh/".data.isPrefixOf r then some 15
    else if "://err.sh/".data.isPrefixOf r then some 14
    else none
  else none

/-- Leftmost match of `/https?:\/\/err\.sh\/[^\s]+/` (the error-domain URL
check). -/
def findErrSh : List Char → Option (List Char)
  | [] => none
  | c :: rest =>
    match errShFixedLen (c :: rest) with
    | some n =>
      let run := ((c :: rest).drop n).takeWhile (fun ch => !isJsWs ch)
      if run.isEmpty then findErrSh rest else some ((c :: rest).take n ++ run)
    | none => findErrSh rest

/-- Hostname characters `[a-z0-9-]` under the `i` flag. -/
def isHostChar (c : Char) : Bool :=
  c.isAlpha || c.isDigit || c = '-'

/-- The lookahead class `[\s\n\r\)\]\}\"\'\,\.]` of the anchored URL
pattern. -/
def urlStopChar (c : Char) : Bool :=
  isJsWs c || c = ')' || c = ']' || c = rbraceChar || c = '"' || c = Char.ofNat 39 ||
    c = ',' || c = '.'

/-- Match `https?://[a-z0-9-]+\.vercel\.(app|com)` (case-insensitive) at this
position; returns the length of the match. -/
def vercelCoreAt (l : List Char) : Option Nat :=
  let p :=
    if ciIsPrefix "https://".data l then some 8
    else if ciIsPrefix "http://".data l then some 7
    else none
  match p with
  | none => none
  | some p =>
    let host := (l.drop p).takeWhile isHostChar
    if host.isEmpty then none
    else
      let r := l.drop (p + host.length)
      if ciIsPrefix ".vercel.".data r then
        let r2 := r.drop 8
        if ciIsPrefix "app".data r2 || ciIsPrefix "com".data r2 then
          some (p + host.length + 11)
        else none
      else none

/-- Leftmost match of the anchored URL pattern (core followed by a stop
character or end of input). -/
def findVercel1 : List Char → Option (List Char)
  | [] => none
  | c :: rest =>
    match vercelCoreAt (c :: rest) with
    | some n =>
      if (match (c :: rest).drop n with | [] => true | c2 :: _ => urlStopChar c2) then
        some ((c :: rest).take n)
      else findVercel1 rest
    | none => findVercel1 rest

/-- Path characters `[^\s\n\r\)\]\}\"\'\,]` of the looser URL pattern. -/
def pathChar (c : Char) : Bool :=
  !(isJsWs c || c = ')' || c = ']' || c = rbraceChar || c = '"' || c = Char.ofNat 39 || c = ',')

/-- Leftmost match of the looser URL pattern (core with an optional path). -/
def findVercel2 : List Char → Option (List Char)
  | [] => none
  | c :: rest =>
    match vercelCoreAt (c :: rest) with
    | some n =>
      match (c :: rest).drop n with
      | c2 :: t =>
        if c2 = '/' then some ((c :: rest).take (n + 1 + (t.takeWhile pathChar).length))
        else some ((c :: rest).take n)
      | [] => some ((c :: rest).take n)
    | none => findVercel2 rest

/-- Leftmost match of the bare core pattern (the final-validation cleanup
regex, no anchor and no path). -/
def findVercel0 : List Char → Option (List Char)
  | [] => none
  | c :: rest =>
    match vercelCoreAt (c :: rest) with
    | some n => some ((c :: rest).take n)
    | none => findVercel0 rest

/-- The deployer's URL search over the combined output: the anchored pattern
first, then the looser fallback pattern. -/
def vercelUrlSearch (l : List Char) : Option (List Char) :=
  match findVercel1 l with
  | some m => some m
  | none => findVercel2 l

/-- `/\.vercel\.(app|com)$/i` on the candidate URL. -/
def endsVercel (u : String) : Bool :=
  ".vercel.app".data.isSuffixOf (strToLower u).data ||
    ".vercel.com".data.isSuffixOf (strToLower u).data

/-- Post-processing of a matched URL: trim, ensure scheme, drop a trailing
slash, and re-extract the bare core if the result does not end at the
platform domain. -/
def processUrl (m : List Char) : String :=
  let u := strTrim ⟨m⟩
  let u := if strStartsWith u "http" then u else "https://" ++ u
  let u := if strEndsWith u "/" then ⟨u.data.dropLast⟩ else u
  if endsVercel u then u
  else
    match findVercel0 u.data with
    | some c => ⟨c⟩
    | none => u

/-- The try body of `deployToVercel`, as a function of the exec outcome;
thrown errors carry their message. -/
def deployBody (execOutcome : ExecOutcome) : Except String DeploymentResult := do
  let stdout :=
    match execOutcome with
    | .ok o _ => o
    | .err _ o _ => o.getD ""
  let stderr :=
    match execOutcome with
    | .ok _ e => e
    | .err _ _ e => e.getD ""
  let _ ←
    match execOutcome with
    | .err msg _ _ => if stdout = "" && stderr = "" then Except.error msg else Except.ok ()
    | .ok _ _ => Except.ok ()
  let combined := stdout ++ stderr
  match findErrSh combined.data with
  | some errorUrl =>
    Except.error ("Vercel deployment failed: " ++ (⟨errorUrl⟩ : String) ++
      ". Check your VERCEL_TOKEN and ensure it" ++ apos ++ "s valid.")
  | none =>
    match vercelUrlSearch combined.data with
    | some m => Except.ok { success := true, deployedUrl := some (processUrl m), error := none }
    | none =>
      let lowOut := strToLower combined
      if strIncludes lowOut "no credentials" || strIncludes lowOut "authentication" ||
          strIncludes lowOut "token" then
        Except.error "Vercel authentication failed. Please check your VERCEL_TOKEN environment variable."
      else
        Except.error ("Could not parse deployment URL from Vercel output. Output: " ++
          (⟨combined.data.take 500⟩ : String))

/-- `deployToVercel` from vercel-deployer.ts: missing or empty token
short-circuits; otherwise the try body runs and the catch block turns a
thrown message into a failure result. -/
def deployToVercel (vercelToken : Option String) (execOutcome : ExecOutcome) :
    DeploymentResult :=
  match vercelToken with
  | none =>
    { success := false, deployedUrl := none,
      error := some "VERCEL_TOKEN not set in environment variables. Please add it to your .env file." }
  | some t =>
    if t = "" then
      { success := false, deployedUrl := none,
        error := some "VERCEL_TOKEN not set in environment variables. Please add it to your .env file." }
    else
      match deployBody execOutcome with
      | .ok r => r
      | .error msg => { success := false, deployedUrl := none, error := some msg }

/-! ## JSON round trip (`data.json` write and read-back)

The orchestrator writes `JSON.stringify(filteredData, null, 2)` into the
job's `data.json`; the add-a-page endpoint reads the file back with
`JSON.parse`.  `Json` models the JSON values a dataset snapshot consists of
(numbers as integers), `stringifyIndent2` is `JSON.stringify(·, null, 2)`,
and `parseJson` is a whitespace-skipping recursive-descent parser that agrees
with `JSON.parse` on every string `stringifyIndent2` produces (it accepts a
superset of strict JSON, which is irrelevant for the round trip). -/

/-- JSON values (numbers as integers). -/
inductive Json : Type where
  | null
  | bool (b : Bool)
  | num (n : Int)
  | str (s : String)
  | arr (elems : List Json)
  | obj (members : List (String × Json))
deriving Repr

/-- Lowercase hexadecimal digit for `n < 16`. -/
def hexDigitChar (n : Nat) : Char :=
  if n < 10 then Char.ofNat (48 + n) else Char.ofNat (87 + n)

/-- `JSON.stringify` string escaping of one character: quote, backslash and
the named control escapes, `\u00XX` for other control characters, everything
else verbatim. -/
def escapeChar (c : Char) : List Char :=
  if c = '"' then ['\\', '"']
  else if c = '\\' then ['\\', '\\']
  else if c = Char.ofNat 8 then ['\\', 'b']
  else if c = Char.ofNat 12 then ['\\', 'f']
  else if c = '\n' then ['\\', 'n']
  else if c = '\r' then ['\\', 'r']
  else if c = '\t' then ['\\', 't']
  else if c.toNat < 32 then ['\\', 'u', '0', '0', hexDigitChar (c.toNat / 16), hexDigitChar (c.toNat % 16)]
  else [c]

/-- Escape every character of a string body. -/
def escapeChars : List Char → List Char
  | [] => []
  | c :: rest => escapeChar c ++ escapeChars rest

/-- A JSON string literal: quoted escaped body. -/
def quoteStr (s : String) : List Char :=
  '"' :: (escapeChars s.data ++ ['"'])

/-- The indentation gap of `JSON.stringify(·, null, 2)` at depth `d`. -/
def indentChars (d : Nat) : List Char :=
  List.replicate (2 * d) ' '

mutual

/-- `JSON.stringify(v, null, 2)` at nesting depth `d`. -/
def printJson : Json → Nat → List Char
  | .null, _ => "null".data
  | .bool true, _ => "true".data
  | .bool false, _ => "false".data
  | .num n, _ => intToChars n
  | .str s, _ => quoteStr s
  | .arr [], _ => "[]".data
  | .arr (v :: vs), d =>
    '[' :: '\n' :: (printItems (v :: vs) (d + 1) ++ '\n' :: (indentChars d ++ [']']))
  | .obj [], _ => [lbraceChar, rbraceChar]
  | .obj (m :: ms), d =>
    lbraceChar :: '\n' :: (printMembers (m :: ms) (d + 1) ++ '\n' :: (indentChars d ++ [rbraceChar]))

/-- Array elements: each on its own indented line, comma separated. -/
def printItems : List Json → Nat → List Char
  | [], _ => []
  | [v], d => indentChars d ++ printJson v d
  | v :: vs, d => indentChars d ++ (printJson v d ++ ',' :: '\n' :: printItems vs d)

/-- Object members: each `"key": value` on its own indented line, comma
separated. -/
def printMembers : List (String × Json) → Nat → List Char
  | [], _ => []
  | [(k, v)], d => indentChars d ++ (quoteStr k ++ ':' :: ' ' :: printJson v d)
  | (k, v) :: ms, d =>
    indentChars d ++ (quoteStr k ++ ':' :: ' ' :: (printJson v d ++ ',' :: '\n' :: printMembers ms d))

end

/-- `JSON.stringify(v, null, 2)`. -/
def stringifyIndent2 (v : Json) : String :=
  ⟨printJson v 0⟩

/-- Hexadecimal digit test. -/
def isHexDigit (c : Char) : Bool :=
  c.isDigit || ('a' ≤ c && c ≤ 'f') || ('A' ≤ c && c ≤ 'F')

/-- Hexadecimal digit value. -/
def hexVal (c : Char) : Nat :=
  if c.isDigit then c.toNat - 48
  else if 'a' ≤ c && c ≤ 'f' then c.toNat - 87
  else c.toNat - 55

/-- The named escape characters accepted after a backslash. -/
def escCharOf (e : Char) : Option Char :=
  if e = '"' then some '"'
  else if e = '\\' then some '\\'
  else if e = '/' then some '/'
  else if e = 'b' then some (Char.ofNat 8)
  else if e = 'f' then some (Char.ofNat 12)
  else if e = 'n' then some '\n'
  else if e = 'r' then some '\r'
  else if e = 't' then some '\t'
  else none

mutual

/-- Parse a string body after the opening quote: unescaped content plus the
input remaining after the closing quote. -/
def parseStringBody : List Char → Option (List Char × List Char)
  | [] => none
  | c :: rest =>
    if c = '"' then some ([], rest)
    else if c = '\\' then parseEscape rest
    else (parseStringBody rest).map (fun p => (c :: p.1, p.2))

/-- Parse the remainder of a string body after a backslash. -/
def parseEscape : List Char → Option (List Char × List Char)
  | [] => none
  | e :: rest2 =>
    if e = 'u' then parseUnicode rest2
    else
      (escCharOf e).bind (fun c2 => (parseStringBody rest2).map (fun p => (c2 :: p.1, p.2)))

/-- Parse the remainder of a string body after a `\u` escape lead-in. -/
def parseUnicode : List Char → Option (List Char × List Char)
  | h1 :: h2 :: h3 :: h4 :: rest3 =>
    if isHexDigit h1 && isHexDigit h2 && isHexDigit h3 && isHexDigit h4 then
      (parseStringBody rest3).map (fun p =>
        (Char.ofNat (((hexVal h1 * 16 + hexVal h2) * 16 + hexVal h3) * 16 + hexVal h4) :: p.1,
         p.2))
    else none
  | _ => none

end

/-- Parse a maximal digit run as a natural number. -/
def parseNatNum (l : List Char) : Option (Nat × List Char) :=
  let ds := l.takeWhile Char.isDigit
  if ds.isEmpty then none else some (digitsToNat ds, l.drop ds.length)

/-- Parse an integer literal (optional minus sign, then digits). -/
def parseNumber (l : List Char) : Option (Int × List Char) :=
  match l with
  | [] => none
  | c :: t =>
    if c = '-' then (parseNatNum t).map (fun p => (-(p.1 : Int), p.2))
    else (parseNatNum (c :: t)).map (fun p => ((p.1 : Int), p.2))

mutual

/-- Parse one JSON value, skipping leading whitespace; `fuel` bounds the
recursion depth. -/
def parseValue : Nat → List Char → Option (Json × List Char)
  | 0, _ => none
  | fuel + 1, l0 =>
    match l0.dropWhile isJsWs with
    | [] => none
    | c :: rest =>
      if c = 'n' then
        match rest with
        | 'u' :: 'l' :: 'l' :: r => some (.null, r)
        | _ => none
      else if c = 't' then
        match rest with
        | 'r' :: 'u' :: 'e' :: r => some (.bool true, r)
        | _ => none
      else if c = 'f' then
        match rest with
        | 'a' :: 'l' :: 's' :: 'e' :: r => some (.bool false, r)
        | _ => none
      else if c = '"' then
        (parseStringBody rest).map (fun p => (.str ⟨p.1⟩, p.2))
      else if c = '[' then
        match rest.dropWhile isJsWs with
        | c2 :: r2 =>
          if c2 = ']' then some (.arr [], r2)
          else (parseItems fuel rest).map (fun p => (.arr p.1, p.2))
        | [] => (parseItems fuel rest).map (fun p => (.arr p.1, p.2))
      else if c = lbraceChar then
        match rest.dropWhile isJsWs with
        | c2 :: r2 =>
          if c2 = rbraceChar then some (.obj [], r2)
          else (parseMembers fuel rest).map (fun p => (.obj p.1, p.2))
        | [] => none
      else
        (parseNumber (c :: rest)).map (fun p => (.num p.1, p.2))
termination_by structural fuel => fuel

/-- Parse one or more array elements and the closing bracket. -/
def parseItems : Nat → List Char → Option (List Json × List Char)
  | 0, _ => none
  | fuel + 1, l => do
    let (v, r) ← parseValue fuel l
    match r.dropWhile isJsWs with
    | ',' :: r2 => do
      let (vs, r3) ← parseItems fuel r2
      pure (v :: vs, r3)
    | ']' :: r2 => pure ([v], r2)
    | _ => none
termination_by structural fuel => fuel

/-- Parse one or more object members and the closing brace. -/
def parseMembers : Nat → List Char → Option (List (String × Json) × List Char)
  | 0, _ => none
  | fuel + 1, l =>
    match l.dropWhile isJsWs with
    | [] => none
    | c :: rest =>
      if c = '"' then do
        let (k, r) ← parseStringBody rest
        match r.dropWhile isJsWs with
        | c2 :: r2 =>
          if c2 = ':' then do
            let (v, r3) ← parseValue fuel r2
            match r3.dropWhile isJsWs with
            | ',' :: r5 => do
              let (ms, r6) ← parseMembers fuel r5
              pure ((⟨k⟩, v) :: ms, r6)
            | c3 :: r5 =>
              if c3 = rbraceChar then pure ([(⟨k⟩, v)], r5) else none
            | [] => none
          else none
        | [] => none
      else none

end

/-- `JSON.parse` on the strings the pipeline writes: parse one value and
require only whitespace after it. -/
def parseJson (s : String) : Option Json :=
  match parseValue (s.data.length + 1) s.data with
  | some (v, r) => if (r.dropWhile isJsWs).isEmpty then some v else none
  | none => none

/-- The analyzer's show-all keyword test on the request text (the condition
of the show-all limit bump). -/
def containsAllKeyword (intent : String) : Bool :=
  let low := strToLower intent
  strIncludes low "all" || strIncludes low "all data" || strIncludes low "all companies" ||
    strIncludes low "all products" || strIncludes low "show all" || strIncludes low "all services"

/-- The analyzer's explicit-singular-language test on the request text. -/
def containsSingularKeyword (intent : String) : Bool :=
  let low := strToLower intent
  strIncludes low "one" || strIncludes low "single" || strIncludes low "just one"

mutual

/-- Recursion budget the parser needs for a value (used only in proofs). -/
def needV : Json → Nat
  | .null => 1
  | .bool _ => 1
  | .num _ => 1
  | .str _ => 1
  | .arr l => 1 + needItems l
  | .obj m => 1 + needMembers m

/-- Recursion budget for an element list. -/
def needItems : List Json → Nat
  | [] => 0
  | v :: vs => 1 + needV v + needItems vs

/-- Recursion budget for a member list. -/
def needMembers : List (String × Json) → Nat
  | [] => 0
  | m :: ms => 1 + needV m.2 + needMembers ms

end

/-- The head of the list, if any, is not a decimal digit (so that a number
parse cannot run past its printed digits). -/
def noDigitHead : List Char → Prop
  | [] => True
  | c :: _ => c.isDigit = false

/-! ## Theorems -/

/-- C3: for every successfully parsed model reply whose `limit` field is not
a number in (0, 500] — absent, non-numeric, zero, negative, or above 500 —
the analyzer returns limit exactly 100. -/
theorem analyzeIntent_invalid_limit_defaults_100 (intent : String) (parsed : ParsedIntent)
    (h : ∀ n : Int, parsed.limit = some (.num n) → ¬(0 < n ∧ n ≤ 500)) :
    (analyzeIntent intent (.ok parsed)).limit = 100 := by
  rcases hp : parsed.limit with _ | v
  · simp [analyzeIntent, analyzeIntentOk, hp]
  · cases v with
    | num n =>
      have hn := h n hp
      simp [analyzeIntent, analyzeIntentOk, hp, hn]
    | str s => simp [analyzeIntent, analyzeIntentOk, hp]
    | bool b => simp [analyzeIntent, analyzeIntentOk, hp]
    | null => simp [analyzeIntent, analyzeIntentOk, hp]
    | arr l => simp [analyzeIntent, analyzeIntentOk, hp]
    | obj f => simp [analyzeIntent, analyzeIntentOk, hp]

/-- Witness for C3 at a concrete input: a string-valued limit is replaced by
exactly 100. -/
theorem analyzeIntent_invalid_limit_defaults_100_witness :
    (analyzeIntent "show me stuff" (.ok ⟨none, none, some (.str "abc")⟩)).limit = 100 :=
  analyzeIntent_invalid_limit_defaults_100 "show me stuff" ⟨none, none, some (.str "abc")⟩
    (fun n h => by cases h)

/-- C7 counterexample: the request "just one of all movies" contains explicit
singular language, the model reply parses with limit 1, yet the returned
limit is 100 and not 1 — the show-all bump fires before the limit-1 guard. -/
theorem analyzeIntent_limit_one_claim_counterexample :
    containsSingularKeyword "just one of all movies" = true ∧
      (analyzeIntent "just one of all movies" (.ok ⟨none, none, some (.num 1)⟩)).limit = 100 :=
  ⟨by decide, by decide⟩

/-- C7 (amended): for a parsed reply with limit 1, the analyzer returns 100
when the request has no explicit singular language; when the request does
have singular language and does not contain any show-all keyword (all of
which contain the substring "all"), the limit of 1 is kept. -/
theorem analyzeIntent_limit_one_guard (intent : String) (parsed : ParsedIntent)
    (hl : parsed.limit = some (.num 1)) :
    (containsSingularKeyword intent = false →
      (analyzeIntent intent (.ok parsed)).limit = 100) ∧
    (containsSingularKeyword intent = true → containsAllKeyword intent = false →
      (analyzeIntent intent (.ok parsed)).limit = 1) := by
  constructor
  · intro hs
    simp only [containsSingularKeyword, Bool.or_eq_false_iff] at hs
    obtain ⟨⟨h1, h2⟩, h3⟩ := hs
    simp [analyzeIntent, analyzeIntentOk, hl, h1, h2, h3]
  · intro hs hA
    simp only [containsAllKeyword, Bool.or_eq_false_iff] at hA
    obtain ⟨⟨⟨⟨⟨a1, a2⟩, a3⟩, a4⟩, a5⟩, a6⟩ := hA
    simp only [containsSingularKeyword, Bool.or_eq_true] at hs
    rcases hs with (h | h) | h <;>
      simp [analyzeIntent, analyzeIntentOk, hl, h, a1, a2, a3, a4, a5, a6]

/-- Witness for the amended C7 at concrete inputs: "show just one movie"
keeps limit 1. -/
theorem analyzeIntent_limit_one_guard_witness :
    (analyzeIntent "show just one movie" (.ok ⟨none, none, some (.num 1)⟩)).limit = 1 :=
  (analyzeIntent_limit_one_guard "show just one movie" ⟨none, none, some (.num 1)⟩ rfl).2
    (by decide) (by decide)

/-- A matched year token is at least 1900 (its first two digits are 19 or
20). -/
theorem yearAt_ge (l : List Char) (y : Nat) (h : yearAt l = some y) : 1900 ≤ y := by
  match l with
  | [] => simp [yearAt] at h
  | [c1] => simp [yearAt] at h
  | [c1, c2] => simp [yearAt] at h
  | [c1, c2, c3] => simp [yearAt] at h
  | c1 :: c2 :: c3 :: c4 :: rest =>
    simp only [yearAt] at h
    split at h
    · rename_i hc
      injection h with h
      subst h
      simp only [Bool.and_eq_true, Bool.or_eq_true, decide_eq_true_eq] at hc
      obtain ⟨⟨⟨h12 | h12, -⟩, -⟩, -⟩ := hc
      · obtain ⟨e1, e2⟩ := h12
        subst e1; subst e2
        have t1 : ('1' : Char).toNat = 49 := rfl
        have t2 : ('9' : Char).toNat = 57 := rfl
        simp only [digitsToNat, List.foldl, t1, t2]
        omega
      · obtain ⟨e1, e2⟩ := h12
        subst e1; subst e2
        have t1 : ('2' : Char).toNat = 50 := rfl
        have t2 : ('0' : Char).toNat = 48 := rfl
        simp only [digitsToNat, List.foldl, t1, t2]
        omega
    · cases h

/-- Every year returned by the fallback scan is at least 1900. -/
theorem findYearAux_ge (l : List Char) (p : Bool) (y : Nat)
    (h : findYearAux p l = some y) : 1900 ≤ y := by
  induction l generalizing p with
  | nil => simp [findYearAux] at h
  | cons c rest ih =>
    simp only [findYearAux] at h
    split at h
    · cases hy : yearAt (c :: rest) with
      | some z =>
        rw [hy] at h
        injection h with h
        subst h
        exact yearAt_ge _ _ hy
      | none =>
        rw [hy] at h
        exact ih _ h
    · exact ih _ h

/-- C8: whenever the lowercased request contains a year token
`\b(19|20)\d{2}\b`, the heuristic fallback (taken on any parse or network
failure) returns a filters map whose `year` entry is exactly the first such
token as an integer, with limit fixed at 100. -/
theorem analyzeIntent_fallback_year (intent : String) (y : Nat)
    (h : findFirstYear (strToLower intent).data = some y) :
    (analyzeIntent intent (.error ())).filters.lookup "year" = some (.num (y : Int)) ∧
      (analyzeIntent intent (.error ())).limit = 100 := by
  have hy : 1900 ≤ y := findYearAux_ge _ _ _ h
  constructor
  · have hy0 : y ≠ 0 := by omega
    simp [analyzeIntent, analyzeIntentFallback, findFirstYear] at h ⊢
    simp [h, hy0, List.lookup]
  · rfl

/-- Witness for C8 at a concrete input: the first of two year tokens is
extracted. -/
theorem analyzeIntent_fallback_year_witness :
    findFirstYear (strToLower "movies from 2015 and 2019").data = some 2015 ∧
      (analyzeIntent "movies from 2015 and 2019" (.error ())).filters.lookup "year" =
        some (.num 2015) ∧
      (analyzeIntent "movies from 2015 and 2019" (.error ())).limit = 100 :=
  ⟨by decide, analyzeIntent_fallback_year "movies from 2015 and 2019" 2015 (by decide)⟩

/-- C6: when no available source name occurs case-insensitively in the model
reply, and likewise when the call throws, `verifyDataSource` returns the
originally detected source unchanged. -/
theorem verifyDataSource_keeps_original (detected : String) (reply : Except Unit String)
    (h : ∀ t, reply = .ok t →
      ∀ s ∈ knownSources, strIncludes (strToLower (strTrim t)) (strToLower s) = false) :
    verifyDataSource detected knownSources reply = detected := by
  cases reply with
  | error e => rfl
  | ok t =>
    have hall := h t rfl
    rw [verifyDataSource]
    split
    · rfl
    · rw [List.find?_eq_none.mpr]
      intro s hs
      simp [hall s hs]

/-- Witness for C6 at a concrete input: a reply naming no collection leaves
the detected source alone. -/
theorem verifyDataSource_keeps_original_witness :
    verifyDataSource "movies" knownSources (.ok "hmm unclear") = "movies" :=
  verifyDataSource_keeps_original "movies" (.ok "hmm unclear")
    (fun t ht => by cases ht; decide)

/-- C4: any exception thrown inside the validation step — the review model
call, JSON parsing of its reply, a per-file fix call, or a file write — is
swallowed, and `validateAndFixWebsite` returns the no-issues result. -/
theorem validateAndFixWebsite_swallows_errors (w : ValidatorWorld) (files : List String)
    (h : ∃ e, runValidation w files = .error e) :
    validateAndFixWebsite w files = noIssuesResult := by
  obtain ⟨e, he⟩ := h
  rw [validateAndFixWebsite, he]

/-- Witness for C4 at a concrete world whose review call throws. -/
theorem validateAndFixWebsite_swallows_errors_witness :
    validateAndFixWebsite
        ⟨.error (), fun _ => .ok "", fun _ _ => .ok ()⟩ ["index.html", "app.js"] =
      noIssuesResult :=
  validateAndFixWebsite_swallows_errors _ _ ⟨(), rfl⟩

/-- `slice(0, L)` for a positive integral bound keeps `min L len`
elements. -/
theorem sliceEnd_num_pos (len : Nat) (L : Int) (h : 0 < L) :
    sliceEnd len (.num L) = min L.toNat len := by
  simp only [sliceEnd, toNumber]
  rw [if_neg (by omega)]

/-- Unfolding `filterData` when the filtering pipeline succeeds. -/
theorem filterData_ok (ds : String) (filters : List (String × JsVal))
    (allData : List DataItem) (filtered : List DataItem)
    (h : applyAllFilters ds filters allData = .ok filtered) :
    filterData ds filters allData =
      (let limitV := filters.lookup "limit"
       let f2 :=
         if truthy limitV && jsGtNum filtered.length (limitV.getD .null) then
           filtered.take (sliceEnd filtered.length (limitV.getD .null))
         else filtered
       if f2.length = 0 && allData.length > 0 then
         Except.ok (allData.take (sliceEnd allData.length ((jsOr limitV (some (.num 100))).getD .null)))
       else Except.ok f2) := by
  rw [filterData, h]
  rfl

/-- Unfolding `filterData` when the filtering pipeline throws. -/
theorem filterData_err (ds : String) (filters : List (String × JsVal))
    (allData : List DataItem) (e : Unit)
    (h : applyAllFilters ds filters allData = .error e) :
    filterData ds filters allData = .error e := by
  rw [filterData, h]
  rfl

/-- C2: whenever applying the collection-specific and declared filters to a
non-empty collection yields zero records, `filterData` with a positive
numeric limit returns exactly `min limit |allData|` unfiltered records taken
from the front — never an empty list. -/
theorem filterData_zero_match_fallback (ds : String) (filters : List (String × JsVal))
    (allData : List DataItem) (L : Int)
    (hne : allData ≠ [])
    (hl : filters.lookup "limit" = some (.num L))
    (hpos : 0 < L)
    (hempty : applyAllFilters ds filters allData = .ok []) :
    filterData ds filters allData = .ok (allData.take L.toNat) ∧
      (allData.take L.toNat).length = min L.toNat allData.length ∧
      allData.take L.toNat ≠ [] := by
  have hL0 : L ≠ 0 := ne_of_gt hpos
  have hlen : 0 < allData.length := List.length_pos.mpr hne
  have hjsor : jsOr (some (JsVal.num L)) (some (JsVal.num 100)) = some (JsVal.num L) := by
    simp [jsOr, truthy, truthyV, hL0]
  refine ⟨?_, List.length_take _ _, ?_⟩
  · rw [filterData_ok ds filters allData [] hempty]
    simp only [hl, List.take_nil, ite_self, List.length_nil, hjsor, Option.getD_some]
    rw [if_pos (by simp [hlen]), sliceEnd_num_pos _ _ hpos,
      ← List.take_take, List.take_length]
  · have h2 : 0 < L.toNat := by omega
    intro heq
    have h1 := List.length_take L.toNat allData
    rw [heq] at h1
    simp only [List.length_nil] at h1
    omega

/-- Witness for C2 at concrete inputs: a year filter matching nothing on a
one-record collection returns that record (the dataset stores years as
strings, as the movies collection does). -/
theorem filterData_zero_match_fallback_witness :
    filterData "movies" [("year", .num 1999), ("limit", .num 5)]
        [[("Year", .str "2000-01")]] =
      .ok [[("Year", .str "2000-01")]] :=
  (filterData_zero_match_fallback "movies" [("year", .num 1999), ("limit", .num 5)]
    [[("Year", .str "2000-01")]] 5 (by simp) rfl (by decide) (by rfl)).1

/-- C10: on every execution path — including the zero-match fallback — a
call to `filterData` with a positive numeric limit returns at most `limit`
records. -/
theorem filterData_respects_limit (ds : String) (filters : List (String × JsVal))
    (allData : List DataItem) (L : Int) (res : List DataItem)
    (hl : filters.lookup "limit" = some (.num L))
    (hpos : 0 < L)
    (hres : filterData ds filters allData = .ok res) :
    res.length ≤ L.toNat := by
  have hL0 : L ≠ 0 := ne_of_gt hpos
  cases happ : applyAllFilters ds filters allData with
  | error e =>
    rw [filterData_err ds filters allData e happ] at hres
    cases hres
  | ok filtered =>
    have hjsor : jsOr (some (JsVal.num L)) (some (JsVal.num 100)) = some (JsVal.num L) := by
      simp [jsOr, truthy, truthyV, hL0]
    rw [filterData_ok ds filters allData filtered happ] at hres
    simp only [hl, hjsor, Option.getD_some] at hres
    by_cases hc1 :
        (truthy (some (JsVal.num L)) && jsGtNum filtered.length (JsVal.num L)) = true
    · rw [if_pos hc1, sliceEnd_num_pos _ _ hpos] at hres
      split at hres
      · rw [sliceEnd_num_pos _ _ hpos] at hres
        injection hres with hres
        subst hres
        rw [List.length_take]
        omega
      · injection hres with hres
        subst hres
        rw [List.length_take]
        omega
    · rw [if_neg hc1] at hres
      have hle : filtered.length ≤ L.toNat := by
        have ht : truthy (some (JsVal.num L)) = true := by simp [truthy, truthyV, hL0]
        rw [ht, Bool.true_and] at hc1
        simp only [jsGtNum, toNumber, gt_iff_lt, decide_eq_true_eq] at hc1
        omega
      split at hres
      · rw [sliceEnd_num_pos _ _ hpos] at hres
        injection hres with hres
        subst hres
        rw [List.length_take]
        omega
      · injection hres with hres
        subst hres
        exact hle

/-- Witness for C10 at concrete inputs. -/
theorem filterData_respects_limit_witness :
    ([[("Year", JsVal.str "2000")]] : List DataItem).length ≤ (1 : Int).toNat :=
  filterData_respects_limit "movies" [("limit", .num 1)]
    [[("Year", .str "2000")], [("Year", .str "2001")]] 1 [[("Year", .str "2000")]]
    rfl (by decide) (by rfl)



/-- `ensureFile` guarantees at least one entry with the ensured name. -/
theorem countName_ensure_self (files : List PlannedFile) (n p k : String) :
    1 ≤ countName n (ensureFile files n p k) := by
  rw [ensureFile]
  split
  · rename_i h
    rcases List.any_eq_true.mp h with ⟨f, hf, hp⟩
    have hm : f ∈ files.filter (fun f => f.fileName == n) := List.mem_filter.mpr ⟨hf, hp⟩
    exact List.length_pos.mpr (List.ne_nil_of_mem hm)
  · simp [countName, List.filter_append]

/-- `ensureFile` never removes entries of any name. -/
theorem countName_ensure_mono (files : List PlannedFile) (n m p k : String) :
    countName m files ≤ countName m (ensureFile files n p k) := by
  rw [ensureFile]
  split
  · exact le_refl _
  · simp only [countName, List.filter_append, List.length_append]
    exact Nat.le_add_right _ _

/-- C1 (amended): for every model reply — well-formed, malformed, with
duplicate or extra entries — and for the total-parse-failure fallback, the
final architecture plan contains at least one entry named `index.html` and at
least one named `app.js`.  (Exactly one of each is not guaranteed: duplicates
in the model reply survive, see the counterexample.) -/
theorem planArchitecture_mandatory_files (intent : String) (reply : Option (List RawEntry)) :
    1 ≤ countName "index.html" (planArchitecture intent reply).files ∧
      1 ≤ countName "app.js" (planArchitecture intent reply).files := by
  cases reply with
  | none =>
    have h : planArchitecture intent none = fallbackPlan := rfl
    rw [h]
    exact ⟨by decide, by decide⟩
  | some files0 =>
    obtain ⟨base, hb⟩ :
        ∃ base, planArchitecture intent (some files0) =
          ⟨ensureFile
            (ensureFile base "index.html"
              "Home/landing page listing content with search and filters" "page")
            "app.js" "Client-side interactions, search, filters, and data rendering" "script"⟩ :=
      ⟨_, rfl⟩
    rw [hb]
    exact ⟨le_trans (countName_ensure_self _ _ _ _) (countName_ensure_mono _ _ _ _ _),
      countName_ensure_self _ _ _ _⟩

/-- C1 counterexample to the claim as stated: a model reply carrying two
`index.html` entries yields a final plan with two `index.html` entries, not
exactly one — `ensureFile` only adds missing files, it never deduplicates. -/
theorem planArchitecture_duplicate_counterexample :
    countName "index.html"
        (planArchitecture "x"
          (some
            [{ fileName := some (.str "index.html"), purpose := some (.str "p"),
               kind := some (.str "page") },
             { fileName := some (.str "index.html"), purpose := some (.str "p"),
               kind := some (.str "page") }])).files = 2 := by
  decide

/-- C5 counterexample to the claim as stated: the CLI exits non-zero, the
captured stdout contains a valid hosting-domain URL
(`https://my-site.vercel.app`), yet the deployer reports failure — the
err.sh error-URL check runs first and throws. -/
theorem deployToVercel_err_url_counterexample :
    (vercelUrlSearch
        "Error! https://err.sh/vercel/no-creds see https://my-site.vercel.app done".data).isSome =
      true ∧
    (deployToVercel (some "tok")
        (.err "Command failed"
          (some "Error! https://err.sh/vercel/no-creds see https://my-site.vercel.app done")
          (some ""))).success = false :=
  ⟨by decide, by decide⟩

/-- C5 (amended): when the CLI exits non-zero but its captured output is not
entirely empty, contains no err.sh error URL, and contains a hosting-domain
URL, the deployer reports success with that URL (post-processed); and the
exec failure itself is propagated as fatal exactly when both captured
streams are empty. -/
theorem deployToVercel_url_recovery :
    (∀ (tok msg : String) (o e : Option String) (m : List Char),
      tok ≠ "" →
      ¬(o.getD "" = "" ∧ e.getD "" = "") →
      findErrSh (o.getD "" ++ e.getD "").data = none →
      vercelUrlSearch (o.getD "" ++ e.getD "").data = some m →
      deployToVercel (some tok) (.err msg o e) =
        { success := true, deployedUrl := some (processUrl m), error := none }) ∧
    (∀ (tok msg : String), tok ≠ "" →
      deployToVercel (some tok) (.err msg none none) =
        { success := false, deployedUrl := none, error := some msg }) := by
  constructor
  · intro tok msg o e m htok hne herr hurl
    simp only [deployToVercel]
    rw [if_neg htok]
    have hb : deployBody (.err msg o e) =
        .ok { success := true, deployedUrl := some (processUrl m), error := none } := by
      simp only [deployBody]
      rw [if_neg (by simpa using hne), herr, hurl]
      rfl
    rw [hb]
  · intro tok msg htok
    simp only [deployToVercel]
    rw [if_neg htok]
    rfl

/-- Witness for the amended C5 at concrete inputs. -/
theorem deployToVercel_url_recovery_witness :
    deployToVercel (some "t") (.err "boom" (some "ok https://site-a.vercel.app") none) =
      { success := true, deployedUrl := some "https://site-a.vercel.app", error := none } ∧
    deployToVercel (some "t") (.err "boom2" none none) =
      { success := false, deployedUrl := none, error := some "boom2" } :=
  ⟨deployToVercel_url_recovery.1 "t" "boom" (some "ok https://site-a.vercel.app") none
      "https://site-a.vercel.app".data (by decide) (by decide) (by rfl) (by rfl),
    deployToVercel_url_recovery.2 "t" "boom2" (by decide)⟩

/-- Indentation is whitespace. -/
theorem isJsWs_indent (d : Nat) : ∀ c ∈ indentChars d, isJsWs c = true := by
  intro c hc
  rw [indentChars] at hc
  rw [List.eq_of_mem_replicate hc]
  rfl

/-- Dropping a whitespace predicate past a fully-satisfying chunk. -/
theorem dropWhile_append_all {p : Char → Bool} (xs ys : List Char)
    (h : ∀ c ∈ xs, p c = true) : (xs ++ ys).dropWhile p = ys.dropWhile p := by
  induction xs with
  | nil => rfl
  | cons c t ih =>
    simp only [List.cons_append, List.dropWhile_cons, h c (by simp), if_true]
    exact ih (fun c hc => h c (by simp [hc]))

/-- Taking with a predicate satisfied on the whole first chunk. -/
theorem takeWhile_append_all {p : Char → Bool} (xs ys : List Char)
    (h : ∀ c ∈ xs, p c = true) : (xs ++ ys).takeWhile p = xs ++ ys.takeWhile p := by
  induction xs with
  | nil => rfl
  | cons c t ih =>
    simp only [List.cons_append, List.takeWhile_cons, h c (by simp), if_true]
    rw [ih (fun c hc => h c (by simp [hc]))]

/-- Digit characters are decimal digits. -/
theorem digitChar_isDigit (k : Nat) (h : k < 10) : (digitChar k).isDigit = true := by
  interval_cases k <;> decide

/-- Numeric value of a digit character. -/
theorem digitChar_toNat (k : Nat) (h : k < 10) : (digitChar k).toNat = 48 + k := by
  interval_cases k <;> decide

/-- A digit is not whitespace. -/
theorem isJsWs_of_isDigit (c : Char) (h : c.isDigit = true) : isJsWs c = false := by
  rw [isJsWs]
  have h48 : 48 ≤ c.toNat := by
    have := h
    rw [Char.isDigit] at this
    simp only [Bool.and_eq_true, decide_eq_true_eq] at this
    exact this.1
  by_contra hw
  simp only [Bool.or_eq_true, decide_eq_true_eq, Bool.not_eq_false] at hw
  rcases hw with ((((h1 | h1) | h1) | h1) | h1) | h1 <;>
    (subst h1; revert h; decide)

/-- A digit differs from any given non-digit character. -/
theorem ne_of_isDigit (c x : Char) (h : c.isDigit = true) (hx : x.isDigit = false) :
    (c = x) = False := by
  simp only [eq_iff_iff, iff_false]
  intro he
  rw [he, hx] at h
  cases h

/-- Every digit sequence printed by `natToCharsFuel` consists of digits. -/
theorem natToCharsFuel_digits (fuel : Nat) :
    ∀ n, n < fuel → ∀ c ∈ natToCharsFuel fuel n, c.isDigit = true := by
  induction fuel with
  | zero => intro n hn; omega
  | succ f ih =>
    intro n hn c hc
    rw [natToCharsFuel] at hc
    split at hc
    · rename_i h10
      simp only [List.mem_singleton] at hc
      rw [hc]
      exact digitChar_isDigit n h10
    · rename_i h10
      rw [List.mem_append] at hc
      rcases hc with hc | hc
      · have hdiv : n / 10 < n := Nat.div_lt_self (by omega) (by omega)
        exact ih (n / 10) (by omega) c hc
      · simp only [List.mem_singleton] at hc
        rw [hc]
        exact digitChar_isDigit (n % 10) (Nat.mod_lt _ (by omega))

/-- `natToCharsFuel` never prints the empty list when fueled. -/
theorem natToCharsFuel_ne_nil (fuel n : Nat) (h : n < fuel) :
    natToCharsFuel fuel n ≠ [] := by
  cases fuel with
  | zero => omega
  | succ f =>
    rw [natToCharsFuel]
    split
    · simp
    · simp

/-- Appending one digit multiplies the accumulated value by ten. -/
theorem digitsToNat_append_digit (l : List Char) (c : Char) :
    digitsToNat (l ++ [c]) = 10 * digitsToNat l + (c.toNat - 48) := by
  simp [digitsToNat, List.foldl_append]

/-- Parsing back the printed digits of `n` gives `n`. -/
theorem digitsToNat_natToCharsFuel (fuel : Nat) :
    ∀ n, n < fuel → digitsToNat (natToCharsFuel fuel n) = n := by
  induction fuel with
  | zero => intro n hn; omega
  | succ f ih =>
    intro n hn
    rw [natToCharsFuel]
    split
    · rename_i h10
      simp [digitsToNat, digitChar_toNat n h10]
    · rename_i h10
      have hdiv : n / 10 < n := Nat.div_lt_self (by omega) (by omega)
      rw [digitsToNat_append_digit, ih (n / 10) (by omega),
        digitChar_toNat (n % 10) (Nat.mod_lt _ (by omega))]
      omega

/-- Parsing a digit run followed by a non-digit yields its value and the
rest. -/
theorem parseNatNum_print (ds rest : List Char) (hne : ds ≠ [])
    (hd : ∀ c ∈ ds, c.isDigit = true) (hrest : noDigitHead rest) :
    parseNatNum (ds ++ rest) = some (digitsToNat ds, rest) := by
  have htw : (ds ++ rest).takeWhile Char.isDigit = ds := by
    rw [takeWhile_append_all ds rest hd]
    cases rest with
    | nil => simp
    | cons c t =>
      rw [noDigitHead] at hrest
      simp [List.takeWhile_cons, hrest]
  rw [parseNatNum]
  simp only [htw]
  rw [if_neg (by simp [hne])]
  rw [List.drop_left]

/-- Parsing the decimal print of an integer. -/
theorem parseNumber_print (n : Int) (rest : List Char) (hrest : noDigitHead rest) :
    parseNumber (intToChars n ++ rest) = some (n, rest) := by
  by_cases hn : n < 0
  · have h1 : intToChars n = '-' :: natToChars (-n).toNat := by
      rw [intToChars, if_pos hn]
    rw [h1]
    have hlt : (-n).toNat < (-n).toNat + 1 := by omega
    have h2 : parseNumber (('-' :: natToChars (-n).toNat) ++ rest) =
        (parseNatNum (natToChars (-n).toNat ++ rest)).map
          (fun p => (-(p.1 : Int), p.2)) := rfl
    rw [h2, natToChars, parseNatNum_print _ _ (natToCharsFuel_ne_nil _ _ hlt)
      (natToCharsFuel_digits _ _ hlt) hrest, digitsToNat_natToCharsFuel _ _ hlt]
    simp only [Option.map_some']
    congr 2
    omega
  · have h1 : intToChars n = natToChars n.toNat := by
      rw [intToChars, if_neg hn]
    have hlt : n.toNat < n.toNat + 1 := by omega
    obtain ⟨d, ds, hds⟩ : ∃ d ds, natToChars n.toNat = d :: ds := by
      rcases hl : natToChars n.toNat with _ | ⟨d, ds⟩
      · exact absurd hl (by rw [natToChars]; exact natToCharsFuel_ne_nil _ _ hlt)
      · exact ⟨d, ds, rfl⟩
    have hdig : ∀ c ∈ d :: ds, c.isDigit = true := by
      rw [← hds, natToChars]
      exact natToCharsFuel_digits _ _ hlt
    have hdd : d.isDigit = true := hdig d (by simp)
    rw [h1, hds]
    have h2 : parseNumber ((d :: ds) ++ rest) =
        if d = '-' then (parseNatNum (ds ++ rest)).map (fun p => (-(p.1 : Int), p.2))
        else (parseNatNum ((d :: ds) ++ rest)).map (fun p => ((p.1 : Int), p.2)) := rfl
    rw [h2, if_neg (by
      intro he
      rw [he] at hdd
      cases hdd)]
    rw [parseNatNum_print _ _ (by simp) hdig hrest]
    have h3 : digitsToNat (d :: ds) = n.toNat := by
      rw [← hds, natToChars]
      exact digitsToNat_natToCharsFuel _ _ hlt
    rw [h3]
    simp only [Option.map_some']
    congr 2
    omega

/-- Hex digits printed for values below 16 are recognised. -/
theorem isHexDigit_hexDigitChar (k : Nat) (h : k < 16) :
    isHexDigit (hexDigitChar k) = true := by
  interval_cases k <;> decide

/-- Hex digit round trip for values below 16. -/
theorem hexVal_hexDigitChar (k : Nat) (h : k < 16) : hexVal (hexDigitChar k) = k := by
  interval_cases k <;> decide

/-- Unescaping the escaped body returns the original characters and leaves
the remainder after the closing quote. -/
theorem parseStringBody_escape (l rest : List Char) :
    parseStringBody (escapeChars l ++ '"' :: rest) = some (l, rest) := by
  induction l with
  | nil => rfl
  | cons c z ih =>
    have hstep : escapeChars (c :: z) ++ '"' :: rest =
        escapeChar c ++ (escapeChars z ++ '"' :: rest) := by
      rw [escapeChars]
      simp [List.append_assoc]
    rw [hstep]
    by_cases h1 : c = '"'
    · subst h1
      have : parseStringBody (escapeChar '"' ++ (escapeChars z ++ '"' :: rest)) =
          (parseStringBody (escapeChars z ++ '"' :: rest)).map
            (fun p => ('"' :: p.1, p.2)) := rfl
      rw [this, ih]
      rfl
    by_cases h2 : c = '\\'
    · subst h2
      have : parseStringBody (escapeChar '\\' ++ (escapeChars z ++ '"' :: rest)) =
          (parseStringBody (escapeChars z ++ '"' :: rest)).map
            (fun p => ('\\' :: p.1, p.2)) := rfl
      rw [this, ih]
      rfl
    by_cases h3 : c = Char.ofNat 8
    · subst h3
      have : parseStringBody (escapeChar (Char.ofNat 8) ++ (escapeChars z ++ '"' :: rest)) =
          (parseStringBody (escapeChars z ++ '"' :: rest)).map
            (fun p => (Char.ofNat 8 :: p.1, p.2)) := rfl
      rw [this, ih]
      rfl
    by_cases h4 : c = Char.ofNat 12
    · subst h4
      have : parseStringBody (escapeChar (Char.ofNat 12) ++ (escapeChars z ++ '"' :: rest)) =
          (parseStringBody (escapeChars z ++ '"' :: rest)).map
            (fun p => (Char.ofNat 12 :: p.1, p.2)) := rfl
      rw [this, ih]
      rfl
    by_cases h5 : c = '\n'
    · subst h5
      have : parseStringBody (escapeChar '\n' ++ (escapeChars z ++ '"' :: rest)) =
          (parseStringBody (escapeChars z ++ '"' :: rest)).map
            (fun p => ('\n' :: p.1, p.2)) := rfl
      rw [this, ih]
      rfl
    by_cases h6 : c = '\r'
    · subst h6
      have : parseStringBody (escapeChar '\r' ++ (escapeChars z ++ '"' :: rest)) =
          (parseStringBody (escapeChars z ++ '"' :: rest)).map
            (fun p => ('\r' :: p.1, p.2)) := rfl
      rw [this, ih]
      rfl
    by_cases h7 : c = '\t'
    · subst h7
      have : parseStringBody (escapeChar '\t' ++ (escapeChars z ++ '"' :: rest)) =
          (parseStringBody (escapeChars z ++ '"' :: rest)).map
            (fun p => ('\t' :: p.1, p.2)) := rfl
      rw [this, ih]
      rfl
    by_cases h8 : c.toNat < 32
    · have hesc : escapeChar c =
          ['\\', 'u', '0', '0', hexDigitChar (c.toNat / 16), hexDigitChar (c.toNat % 16)] := by
        rw [escapeChar, if_neg h1, if_neg h2, if_neg h3, if_neg h4, if_neg h5, if_neg h6,
          if_neg h7, if_pos h8]
      rw [hesc]
      have hstep2 :
          parseStringBody
            (['\\', 'u', '0', '0', hexDigitChar (c.toNat / 16), hexDigitChar (c.toNat % 16)] ++
              (escapeChars z ++ '"' :: rest)) =
          parseUnicode ('0' :: '0' :: hexDigitChar (c.toNat / 16) ::
            hexDigitChar (c.toNat % 16) :: (escapeChars z ++ '"' :: rest)) := rfl
      rw [hstep2, parseUnicode]
      rw [if_pos (by
        simp only [Bool.and_eq_true]
        refine ⟨⟨⟨by decide, by decide⟩, isHexDigit_hexDigitChar _ (by omega)⟩,
          isHexDigit_hexDigitChar _ (by omega)⟩)]
      rw [ih]
      have hv : ((hexVal '0' * 16 + hexVal '0') * 16 + hexVal (hexDigitChar (c.toNat / 16))) * 16 +
          hexVal (hexDigitChar (c.toNat % 16)) = c.toNat := by
        rw [hexVal_hexDigitChar _ (by omega), hexVal_hexDigitChar _ (by omega)]
        have : hexVal '0' = 0 := by decide
        rw [this]
        omega
      simp only [Option.map_some', hv, Char.ofNat_toNat]
    · have hesc : escapeChar c = [c] := by
        rw [escapeChar, if_neg h1, if_neg h2, if_neg h3, if_neg h4, if_neg h5, if_neg h6,
          if_neg h7, if_neg h8]
      rw [hesc]
      have hstep2 : parseStringBody ([c] ++ (escapeChars z ++ '"' :: rest)) =
          parseStringBody (c :: (escapeChars z ++ '"' :: rest)) := rfl
      rw [hstep2, parseStringBody, if_neg h1, if_neg h2, ih]
      rfl

/-- Leading whitespace is invisible to the value parser. -/
theorem parseValue_ws (fuel : Nat) (ws l : List Char) (h : ∀ c ∈ ws, isJsWs c = true) :
    parseValue fuel (ws ++ l) = parseValue fuel l := by
  cases fuel with
  | zero => rfl
  | succ f =>
    simp only [parseValue]
    rw [dropWhile_append_all ws l h]

/-- Every value needs positive fuel. -/
theorem needV_pos (v : Json) : 1 ≤ needV v := by
  cases v <;> simp [needV]

/-- A nonempty list has a head, a tail and a shape witness. -/
theorem printItems_cons_shape (v : Json) (vs : List Json) (d : Nat) :
    ∃ T, printItems (v :: vs) d = indentChars d ++ (printJson v d ++ T) := by
  cases vs with
  | nil =>
    refine ⟨[], ?_⟩
    simp only [printItems, List.append_nil]
  | cons w ws => exact ⟨',' :: '\n' :: printItems (w :: ws) d, by simp only [printItems]⟩

/-- Shape of a printed nonempty member list. -/
theorem printMembers_cons_shape (k : String) (v : Json) (ms : List (String × Json)) (d : Nat) :
    ∃ T, printMembers ((k, v) :: ms) d =
      indentChars d ++ ('"' :: ((escapeChars k.data ++ ['"']) ++ (':' :: ' ' :: (printJson v d ++ T)))) := by
  cases ms with
  | nil =>
    refine ⟨[], ?_⟩
    simp only [printMembers, quoteStr, List.append_nil]
    simp [List.append_assoc]
  | cons m ms2 =>
    refine ⟨',' :: '\n' :: printMembers (m :: ms2) d, ?_⟩
    simp only [printMembers, quoteStr]
    simp [List.append_assoc]

/-- The first character of any printed value: never whitespace and never a
closing bracket. -/
theorem printJson_head (v : Json) (d : Nat) :
    ∃ c cs, printJson v d = c :: cs ∧ isJsWs c = false ∧ ¬(c = ']') := by
  cases v with
  | null =>
    refine ⟨'n', ['u', 'l', 'l'], ?_, by decide, by decide⟩
    simp only [printJson]
  | bool b =>
    cases b with
    | true =>
      refine ⟨'t', ['r', 'u', 'e'], ?_, by decide, by decide⟩
      simp only [printJson]
    | false =>
      refine ⟨'f', ['a', 'l', 's', 'e'], ?_, by decide, by decide⟩
      simp only [printJson]
  | num n =>
    by_cases hn : n < 0
    · refine ⟨'-', natToChars (-n).toNat, ?_, by decide, by decide⟩
      simp only [printJson, intToChars, if_pos hn]
    · have hlt : n.toNat < n.toNat + 1 := by omega
      obtain ⟨d0, ds, hds⟩ : ∃ d0 ds, natToChars n.toNat = d0 :: ds := by
        rcases hl : natToChars n.toNat with _ | ⟨d0, ds⟩
        · exact absurd hl (by rw [natToChars]; exact natToCharsFuel_ne_nil _ _ hlt)
        · exact ⟨d0, ds, rfl⟩
      have hdd : d0.isDigit = true := by
        have := natToCharsFuel_digits (n.toNat + 1) n.toNat hlt d0
        rw [natToChars] at hds
        exact this (by rw [hds]; simp)
      refine ⟨d0, ds, ?_, isJsWs_of_isDigit d0 hdd, ?_⟩
      · simp only [printJson, intToChars, if_neg hn]
        exact hds
      · intro he
        rw [he] at hdd
        cases hdd
  | str s =>
    refine ⟨'"', escapeChars s.data ++ ['"'], ?_, by decide, by decide⟩
    simp only [printJson, quoteStr]
  | arr l =>
    cases l with
    | nil =>
      refine ⟨'[', [']'], ?_, by decide, by decide⟩
      simp only [printJson]
    | cons v vs =>
      exact ⟨'[', '\n' :: (printItems (v :: vs) (d + 1) ++ '\n' :: (indentChars d ++ [']'])),
        by simp only [printJson], by decide, by decide⟩
  | obj m =>
    cases m with
    | nil =>
      refine ⟨lbraceChar, [rbraceChar], ?_, by decide, by decide⟩
      simp only [printJson]
    | cons mm ms =>
      exact ⟨lbraceChar,
        '\n' :: (printMembers (mm :: ms) (d + 1) ++ '\n' :: (indentChars d ++ [rbraceChar])),
        by simp only [printJson], by decide, by decide⟩


/-- Reducing an Option bind whose scrutinee is a literal some. -/
theorem bind_some_eq {α β : Type} (a : α) (f : α → Option β) :
    (do let x ← some a; f x : Option β) = f a := rfl

/-- A cons list whose head is not a digit has no digit head. -/
theorem noDigitHead_cons (c : Char) (L : List Char) (h : c.isDigit = false) :
    noDigitHead (c :: L) := h

/-- Dropping whitespace walks past a whitespace head. -/
theorem dropWhile_cons_of_pos (c : Char) (hc : isJsWs c = true) (X : List Char) :
    List.dropWhile isJsWs (c :: X) = List.dropWhile isJsWs X := by
  simp [List.dropWhile_cons, hc]

/-- Dropping whitespace stops at a non-whitespace head. -/
theorem dropWhile_cons_of_neg (c : Char) (hc : isJsWs c = false) (X : List Char) :
    List.dropWhile isJsWs (c :: X) = c :: X := by
  simp [List.dropWhile_cons, hc]

/-- Skipping the newline-plus-indentation gap before a closing delimiter. -/
theorem dropWhile_close (dout : Nat) (c : Char) (hc : isJsWs c = false) (rest : List Char) :
    List.dropWhile isJsWs ('\n' :: (indentChars dout ++ (c :: rest))) = c :: rest := by
  rw [dropWhile_cons_of_pos '\n' (by decide), dropWhile_append_all _ _ (isJsWs_indent dout),
    dropWhile_cons_of_neg c hc]

/-- Parser dispatch at an opening quote. -/
theorem parseValue_str_step (f : Nat) (T : List Char) :
    parseValue (f + 1) ('"' :: T) = (parseStringBody T).map (fun p => (Json.str ⟨p.1⟩, p.2)) := rfl

/-- Parser dispatch at an opening bracket. -/
theorem parseValue_arr_step (f : Nat) (T : List Char) :
    parseValue (f + 1) ('[' :: T) =
      (match T.dropWhile isJsWs with
       | c2 :: r2 =>
         if c2 = ']' then some (.arr [], r2)
         else (parseItems f T).map (fun p => (.arr p.1, p.2))
       | [] => (parseItems f T).map (fun p => (.arr p.1, p.2))) := rfl

/-- Parser dispatch at an opening brace. -/
theorem parseValue_obj_step (f : Nat) (T : List Char) :
    parseValue (f + 1) (lbraceChar :: T) =
      (match T.dropWhile isJsWs with
       | c2 :: r2 =>
         if c2 = rbraceChar then some (.obj [], r2)
         else (parseMembers f T).map (fun p => (.obj p.1, p.2))
       | [] => none) := rfl

/-- Parser dispatch at a minus sign. -/
theorem parseValue_neg_step (f : Nat) (T : List Char) :
    parseValue (f + 1) ('-' :: T) =
      (parseNumber ('-' :: T)).map (fun p => (Json.num p.1, p.2)) := rfl

/-- Parser dispatch at any other non-whitespace head character: the number
branch. -/
theorem parseValue_other_step (f : Nat) (c : Char) (T : List Char)
    (hws : isJsWs c = false) (h1 : (c = 'n') = False) (h2 : (c = 't') = False)
    (h3 : (c = 'f') = False) (h4 : (c = '"') = False) (h5 : (c = '[') = False)
    (h6 : (c = lbraceChar) = False) :
    parseValue (f + 1) (c :: T) = (parseNumber (c :: T)).map (fun p => (Json.num p.1, p.2)) := by
  simp only [parseValue, List.dropWhile_cons, hws, Bool.false_eq_true, if_false,
    h1, h2, h3, h4, h5, h6]

/-- Element-list parsing when the first value is the last element. -/
theorem parseItems_last {f : Nat} {l r rest : List Char} {v : Json}
    (h : parseValue f l = some (v, r)) (hd : r.dropWhile isJsWs = ']' :: rest) :
    parseItems (f + 1) l = some ([v], rest) := by
  simp only [parseItems, h, bind_some_eq, hd]
  rfl

/-- Element-list parsing when the first value is followed by a comma. -/
theorem parseItems_cons {f : Nat} {l r r2 rest : List Char} {v : Json} {vs : List Json}
    (h : parseValue f l = some (v, r)) (hd : r.dropWhile isJsWs = ',' :: r2)
    (hrec : parseItems f r2 = some (vs, rest)) :
    parseItems (f + 1) l = some (v :: vs, rest) := by
  simp only [parseItems, h, bind_some_eq, hd, hrec]
  rfl

/-- Member-list parsing when the first member is the last one. -/
theorem parseMembers_last {f : Nat} {l B kd r r3 r5 rest : List Char} {v : Json}
    (hd : l.dropWhile isJsWs = '"' :: B)
    (hk : parseStringBody B = some (kd, r))
    (hc : r.dropWhile isJsWs = ':' :: r3)
    (hv : parseValue f r3 = some (v, r5))
    (he : r5.dropWhile isJsWs = rbraceChar :: rest) :
    parseMembers (f + 1) l = some ([(⟨kd⟩, v)], rest) := by
  simp only [parseMembers, hd, hk, bind_some_eq, hc, hv, he]
  rfl

/-- Member-list parsing when the first member is followed by a comma. -/
theorem parseMembers_cons {f : Nat} {l B kd r r3 r5 r6 rest : List Char} {v : Json}
    {ms : List (String × Json)}
    (hd : l.dropWhile isJsWs = '"' :: B)
    (hk : parseStringBody B = some (kd, r))
    (hc : r.dropWhile isJsWs = ':' :: r3)
    (hv : parseValue f r3 = some (v, r5))
    (he : r5.dropWhile isJsWs = ',' :: r6)
    (hrec : parseMembers f r6 = some (ms, rest)) :
    parseMembers (f + 1) l = some ((⟨kd⟩, v) :: ms, rest) := by
  simp only [parseMembers, hd, hk, bind_some_eq, hc, hv, he, hrec]
  rfl

/-- Integer printing never yields the empty character list. -/
theorem intToChars_ne_nil (n : Int) : intToChars n ≠ [] := by
  rw [intToChars]
  split
  · simp
  · rw [natToChars]
    exact natToCharsFuel_ne_nil _ _ (by omega)

/-- Joint round trip for the three mutually recursive parser entry points,
by induction on the parsing fuel: a printed value parses back to itself, and
a printed element or member list followed by its closing line parses back to
itself, from any leading whitespace. -/
theorem parse_print (fuel : Nat) :
    (∀ v d rest, needV v ≤ fuel → noDigitHead rest →
      parseValue fuel (printJson v d ++ rest) = some (v, rest)) ∧
    (∀ vs din dout rest ws, vs ≠ [] → (∀ c ∈ ws, isJsWs c = true) → needItems vs ≤ fuel →
      parseItems fuel (ws ++ (printItems vs din ++ ('\n' :: (indentChars dout ++ (']' :: rest)))))
        = some (vs, rest)) ∧
    (∀ ms din dout rest ws, ms ≠ [] → (∀ c ∈ ws, isJsWs c = true) → needMembers ms ≤ fuel →
      parseMembers fuel
          (ws ++ (printMembers ms din ++ ('\n' :: (indentChars dout ++ (rbraceChar :: rest)))))
        = some (ms, rest)) := by
  induction fuel with
  | zero =>
    refine ⟨?_, ?_, ?_⟩
    · intro v d rest hn _
      have := needV_pos v
      omega
    · intro vs din dout rest ws hne _ hn
      cases vs with
      | nil => exact absurd rfl hne
      | cons v t =>
        simp only [needItems] at hn
        omega
    · intro ms din dout rest ws hne _ hn
      cases ms with
      | nil => exact absurd rfl hne
      | cons m t =>
        simp only [needMembers] at hn
        omega
  | succ f ih =>
    obtain ⟨ihV, ihI, ihM⟩ := ih
    refine ⟨?_, ?_, ?_⟩
    · intro v d rest hn hrest
      cases v with
      | null =>
        simp only [printJson]
        rfl
      | bool b =>
        cases b with
        | true =>
          simp only [printJson]
          rfl
        | false =>
          simp only [printJson]
          rfl
      | num n =>
        simp only [printJson]
        by_cases hn0 : n < 0
        · have h1 : intToChars n = '-' :: natToChars (-n).toNat := by
            rw [intToChars, if_pos hn0]
          rw [h1, List.cons_append, parseValue_neg_step, ← List.cons_append, ← h1,
            parseNumber_print n rest hrest]
          rfl
        · have hlt : n.toNat < n.toNat + 1 := by omega
          have h1 : intToChars n = natToChars n.toNat := by
            rw [intToChars, if_neg hn0]
          obtain ⟨d0, ds, hds⟩ : ∃ d0 ds, natToChars n.toNat = d0 :: ds := by
            rcases hl : natToChars n.toNat with _ | ⟨d0, ds⟩
            · exact absurd hl (by rw [natToChars]; exact natToCharsFuel_ne_nil _ _ hlt)
            · exact ⟨d0, ds, rfl⟩
          have hdd : d0.isDigit = true := by
            have hmem := natToCharsFuel_digits (n.toNat + 1) n.toNat hlt d0
            rw [natToChars] at hds
            exact hmem (by rw [hds]; simp)
          rw [h1, hds, List.cons_append,
            parseValue_other_step f d0 (ds ++ rest) (isJsWs_of_isDigit d0 hdd)
              (ne_of_isDigit d0 'n' hdd (by decide)) (ne_of_isDigit d0 't' hdd (by decide))
              (ne_of_isDigit d0 'f' hdd (by decide)) (ne_of_isDigit d0 '"' hdd (by decide))
              (ne_of_isDigit d0 '[' hdd (by decide)) (ne_of_isDigit d0 lbraceChar hdd (by decide)),
            ← List.cons_append, ← hds, ← h1, parseNumber_print n rest hrest]
          rfl
      | str s =>
        simp only [printJson, quoteStr, List.cons_append, List.append_assoc, List.nil_append]
        rw [parseValue_str_step, parseStringBody_escape]
        rfl
      | arr l =>
        cases l with
        | nil =>
          simp only [printJson]
          rfl
        | cons v vs =>
          simp only [printJson, List.cons_append, List.append_assoc, List.nil_append]
          rw [parseValue_arr_step]
          obtain ⟨c0, cs0, hpj, hc0ws, hc0ne⟩ := printJson_head v (d + 1)
          obtain ⟨T2, hT2⟩ := printItems_cons_shape v vs (d + 1)
          have hb : needItems (v :: vs) ≤ f := by
            simp only [needV] at hn
            omega
          have hrec : parseItems f
              ('\n' :: (printItems (v :: vs) (d + 1) ++ ('\n' :: (indentChars d ++ (']' :: rest)))))
              = some (v :: vs, rest) := by
            have hmain := ihI (v :: vs) (d + 1) d rest ['\n'] (by simp)
              (by
                intro c hc
                rw [List.mem_singleton] at hc
                subst hc
                decide) hb
            rwa [List.singleton_append] at hmain
          obtain ⟨Z, hscrut⟩ : ∃ Z,
              List.dropWhile isJsWs
                  ('\n' :: (printItems (v :: vs) (d + 1) ++ ('\n' :: (indentChars d ++ (']' :: rest)))))
                = c0 :: Z := by
            refine ⟨cs0 ++ (T2 ++ ('\n' :: (indentChars d ++ (']' :: rest)))), ?_⟩
            rw [dropWhile_cons_of_pos '\n' (by decide), hT2, List.append_assoc,
              dropWhile_append_all _ _ (isJsWs_indent (d + 1)), List.append_assoc, hpj,
              List.cons_append, dropWhile_cons_of_neg c0 hc0ws]
          simp only [hscrut]
          rw [if_neg hc0ne, hrec]
          rfl
      | obj l =>
        cases l with
        | nil =>
          simp only [printJson]
          rfl
        | cons m ms =>
          obtain ⟨k0, v0⟩ := m
          simp only [printJson, List.cons_append, List.append_assoc, List.nil_append]
          rw [parseValue_obj_step]
          obtain ⟨T2, hT2⟩ := printMembers_cons_shape k0 v0 ms (d + 1)
          have hb : needMembers ((k0, v0) :: ms) ≤ f := by
            simp only [needV] at hn
            omega
          have hrec : parseMembers f
              ('\n' :: (printMembers ((k0, v0) :: ms) (d + 1)
                ++ ('\n' :: (indentChars d ++ (rbraceChar :: rest)))))
              = some ((k0, v0) :: ms, rest) := by
            have hmain := ihM ((k0, v0) :: ms) (d + 1) d rest ['\n'] (by simp)
              (by
                intro c hc
                rw [List.mem_singleton] at hc
                subst hc
                decide) hb
            rwa [List.singleton_append] at hmain
          have hscrut :
              List.dropWhile isJsWs
                  ('\n' :: (printMembers ((k0, v0) :: ms) (d + 1)
                    ++ ('\n' :: (indentChars d ++ (rbraceChar :: rest)))))
                = '"' :: (((escapeChars k0.data ++ ['"'])
                    ++ (':' :: ' ' :: (printJson v0 (d + 1) ++ T2)))
                  ++ ('\n' :: (indentChars d ++ (rbraceChar :: rest)))) := by
            rw [dropWhile_cons_of_pos '\n' (by decide), hT2, List.append_assoc,
              dropWhile_append_all _ _ (isJsWs_indent (d + 1)), List.cons_append,
              dropWhile_cons_of_neg '"' (by decide)]
          simp only [hscrut]
          rw [if_neg (by decide : ¬((Char.ofNat 34) = rbraceChar)), hrec]
          rfl
    · intro vs din dout rest ws hne hws hn
      cases vs with
      | nil => exact absurd rfl hne
      | cons v t =>
        cases t with
        | nil =>
          simp only [printItems, List.cons_append, List.append_assoc, List.nil_append]
          have hb : needV v ≤ f := by
            simp only [needItems] at hn
            omega
          have hpv : parseValue f
              (ws ++ (indentChars din ++ (printJson v din
                ++ ('\n' :: (indentChars dout ++ (']' :: rest))))))
              = some (v, '\n' :: (indentChars dout ++ (']' :: rest))) := by
            rw [parseValue_ws f ws _ hws, parseValue_ws f (indentChars din) _ (isJsWs_indent din)]
            exact ihV v din _ hb (noDigitHead_cons _ _ (by decide))
          exact parseItems_last hpv (dropWhile_close dout ']' (by decide) rest)
        | cons w ws2 =>
          simp only [printItems, List.cons_append, List.append_assoc, List.nil_append]
          have hb1 : needV v ≤ f := by
            simp only [needItems] at hn
            omega
          have hb2 : needItems (w :: ws2) ≤ f := by
            simp only [needItems] at hn ⊢
            omega
          have hpv : parseValue f
              (ws ++ (indentChars din ++ (printJson v din
                ++ (',' :: ('\n' :: (printItems (w :: ws2) din
                  ++ ('\n' :: (indentChars dout ++ (']' :: rest)))))))))
              = some (v, ',' :: ('\n' :: (printItems (w :: ws2) din
                  ++ ('\n' :: (indentChars dout ++ (']' :: rest)))))) := by
            rw [parseValue_ws f ws _ hws, parseValue_ws f (indentChars din) _ (isJsWs_indent din)]
            exact ihV v din _ hb1 (noDigitHead_cons _ _ (by decide))
          have hrec : parseItems f
              ('\n' :: (printItems (w :: ws2) din ++ ('\n' :: (indentChars dout ++ (']' :: rest)))))
              = some (w :: ws2, rest) := by
            have hmain := ihI (w :: ws2) din dout rest ['\n'] (by simp)
              (by
                intro c hc
                rw [List.mem_singleton] at hc
                subst hc
                decide) hb2
            rwa [List.singleton_append] at hmain
          exact parseItems_cons hpv (dropWhile_cons_of_neg ',' (by decide) _) hrec
    · intro ms din dout rest ws hne hws hn
      cases ms with
      | nil => exact absurd rfl hne
      | cons m t =>
        obtain ⟨k0, v0⟩ := m
        cases t with
        | nil =>
          simp only [printMembers, quoteStr, List.cons_append, List.append_assoc, List.nil_append]
          have hb : needV v0 ≤ f := by
            simp only [needMembers] at hn
            omega
          have hd : List.dropWhile isJsWs
              (ws ++ (indentChars din ++ ('"' :: (escapeChars k0.data
                ++ ('"' :: (':' :: (' ' :: (printJson v0 din
                  ++ ('\n' :: (indentChars dout ++ (rbraceChar :: rest)))))))))))
              = '"' :: (escapeChars k0.data
                ++ ('"' :: (':' :: (' ' :: (printJson v0 din
                  ++ ('\n' :: (indentChars dout ++ (rbraceChar :: rest)))))))) := by
            rw [dropWhile_append_all _ _ hws, dropWhile_append_all _ _ (isJsWs_indent din),
              dropWhile_cons_of_neg '"' (by decide)]
          have hv : parseValue f
              (' ' :: (printJson v0 din ++ ('\n' :: (indentChars dout ++ (rbraceChar :: rest)))))
              = some (v0, '\n' :: (indentChars dout ++ (rbraceChar :: rest))) := by
            have h1 := parseValue_ws f [' ']
              (printJson v0 din ++ ('\n' :: (indentChars dout ++ (rbraceChar :: rest))))
              (by
                intro c hc
                rw [List.mem_singleton] at hc
                subst hc
                decide)
            rw [List.singleton_append] at h1
            rw [h1]
            exact ihV v0 din _ hb (noDigitHead_cons _ _ (by decide))
          exact parseMembers_last hd
            (parseStringBody_escape k0.data
              (':' :: (' ' :: (printJson v0 din
                ++ ('\n' :: (indentChars dout ++ (rbraceChar :: rest)))))))
            (dropWhile_cons_of_neg ':' (by decide) _) hv
            (dropWhile_close dout rbraceChar (by decide) rest)
        | cons m2 t2 =>
          simp only [printMembers, quoteStr, List.cons_append, List.append_assoc, List.nil_append]
          have hb1 : needV v0 ≤ f := by
            simp only [needMembers] at hn
            omega
          have hb2 : needMembers (m2 :: t2) ≤ f := by
            simp only [needMembers] at hn ⊢
            omega
          have hd : List.dropWhile isJsWs
              (ws ++ (indentChars din ++ ('"' :: (escapeChars k0.data
                ++ ('"' :: (':' :: (' ' :: (printJson v0 din
                  ++ (',' :: ('\n' :: (printMembers (m2 :: t2) din
                    ++ ('\n' :: (indentChars dout ++ (rbraceChar :: rest))))))))))))))
              = '"' :: (escapeChars k0.data
                ++ ('"' :: (':' :: (' ' :: (printJson v0 din
                  ++ (',' :: ('\n' :: (printMembers (m2 :: t2) din
                    ++ ('\n' :: (indentChars dout ++ (rbraceChar :: rest))))))))))) := by
            rw [dropWhile_append_all _ _ hws, dropWhile_append_all _ _ (isJsWs_indent din),
              dropWhile_cons_of_neg '"' (by decide)]
          have hv : parseValue f
              (' ' :: (printJson v0 din ++ (',' :: ('\n' :: (printMembers (m2 :: t2) din
                ++ ('\n' :: (indentChars dout ++ (rbraceChar :: rest))))))))
              = some (v0, ',' :: ('\n' :: (printMembers (m2 :: t2) din
                ++ ('\n' :: (indentChars dout ++ (rbraceChar :: rest)))))) := by
            have h1 := parseValue_ws f [' ']
              (printJson v0 din ++ (',' :: ('\n' :: (printMembers (m2 :: t2) din
                ++ ('\n' :: (indentChars dout ++ (rbraceChar :: rest)))))))
              (by
                intro c hc
                rw [List.mem_singleton] at hc
                subst hc
                decide)
            rw [List.singleton_append] at h1
            rw [h1]
            exact ihV v0 din _ hb1 (noDigitHead_cons _ _ (by decide))
          have hrec : parseMembers f
              ('\n' :: (printMembers (m2 :: t2) din
                ++ ('\n' :: (indentChars dout ++ (rbraceChar :: rest)))))
              = some (m2 :: t2, rest) := by
            have hmain := ihM (m2 :: t2) din dout rest ['\n'] (by simp)
              (by
                intro c hc
                rw [List.mem_singleton] at hc
                subst hc
                decide) hb2
            rwa [List.singleton_append] at hmain
          exact parseMembers_cons hd
            (parseStringBody_escape k0.data
              (':' :: (' ' :: (printJson v0 din
                ++ (',' :: ('\n' :: (printMembers (m2 :: t2) din
                  ++ ('\n' :: (indentChars dout ++ (rbraceChar :: rest))))))))))
            (dropWhile_cons_of_neg ':' (by decide) _) hv
            (dropWhile_cons_of_neg ',' (by decide) _) hrec

/-- The fuel the parser needs is bounded by the printed length. -/
theorem need_le_print (fuel : Nat) :
    (∀ v d, needV v ≤ fuel → needV v ≤ (printJson v d).length) ∧
    (∀ vs d, needItems vs ≤ fuel → needItems vs ≤ (printItems vs d).length + 1) ∧
    (∀ ms d, needMembers ms ≤ fuel → needMembers ms ≤ (printMembers ms d).length + 1) := by
  induction fuel with
  | zero =>
    refine ⟨?_, ?_, ?_⟩
    · intro v d hn
      have := needV_pos v
      omega
    · intro vs d hn
      cases vs with
      | nil =>
        simp only [needItems]
        omega
      | cons v t =>
        simp only [needItems] at hn
        have := needV_pos v
        omega
    · intro ms d hn
      cases ms with
      | nil =>
        simp only [needMembers]
        omega
      | cons m t =>
        simp only [needMembers] at hn
        have := needV_pos m.2
        omega
  | succ f ih =>
    obtain ⟨ihV, ihI, ihM⟩ := ih
    refine ⟨?_, ?_, ?_⟩
    · intro v d hn
      cases v with
      | null =>
        simp only [needV, printJson]
        decide
      | bool b =>
        cases b with
        | true =>
          simp only [needV, printJson]
          decide
        | false =>
          simp only [needV, printJson]
          decide
      | num n =>
        simp only [needV, printJson]
        have h1 := List.length_pos.mpr (intToChars_ne_nil n)
        omega
      | str s =>
        simp only [needV, printJson, quoteStr, List.length_cons]
        omega
      | arr l =>
        cases l with
        | nil =>
          simp only [needV, needItems, printJson]
          decide
        | cons v vs =>
          simp only [needV, printJson, List.length_cons, List.length_append]
          have hb : needItems (v :: vs) ≤ f := by
            simp only [needV] at hn
            omega
          have h1 := ihI (v :: vs) (d + 1) hb
          omega
      | obj l =>
        cases l with
        | nil =>
          simp only [needV, needMembers, printJson]
          decide
        | cons m ms =>
          simp only [needV, printJson, List.length_cons, List.length_append]
          have hb : needMembers (m :: ms) ≤ f := by
            simp only [needV] at hn
            omega
          have h1 := ihM (m :: ms) (d + 1) hb
          omega
    · intro vs d hn
      cases vs with
      | nil =>
        simp only [needItems]
        omega
      | cons v t =>
        cases t with
        | nil =>
          simp only [needItems, printItems, List.length_append]
          have hb : needV v ≤ f := by
            simp only [needItems] at hn
            omega
          have h1 := ihV v d hb
          omega
        | cons w ws2 =>
          simp only [needItems, printItems, List.length_append, List.length_cons]
          have hb1 : needV v ≤ f := by
            simp only [needItems] at hn
            omega
          have hb2 : needItems (w :: ws2) ≤ f := by
            simp only [needItems] at hn ⊢
            omega
          have h1 := ihV v d hb1
          have h2 := ihI (w :: ws2) d hb2
          simp only [needItems] at h2 ⊢
          omega
    · intro ms d hn
      cases ms with
      | nil =>
        simp only [needMembers]
        omega
      | cons m t =>
        obtain ⟨k0, v0⟩ := m
        cases t with
        | nil =>
          simp only [needMembers, printMembers, quoteStr, List.length_append, List.length_cons]
          have hb : needV v0 ≤ f := by
            simp only [needMembers] at hn
            omega
          have h1 := ihV v0 d hb
          omega
        | cons m2 t2 =>
          simp only [needMembers, printMembers, quoteStr, List.length_append, List.length_cons]
          have hb1 : needV v0 ≤ f := by
            simp only [needMembers] at hn
            omega
          have hb2 : needMembers (m2 :: t2) ≤ f := by
            simp only [needMembers] at hn ⊢
            omega
          have h1 := ihV v0 d hb1
          have h2 := ihM (m2 :: t2) d hb2
          simp only [needMembers] at h2 ⊢
          omega

/-- C9: for every list of dataset records, writing it the way the
orchestrator writes a job data file (JSON.stringify with two-space
indentation) and parsing the written text back (as the add-a-page endpoint
does) yields exactly the same records, in the same order. -/
theorem dataJson_roundtrip (items : List Json) :
    parseJson (stringifyIndent2 (Json.arr items)) = some (Json.arr items) := by
  have hneed : needV (Json.arr items) ≤ (printJson (Json.arr items) 0).length :=
    (need_le_print (needV (Json.arr items))).1 (Json.arr items) 0 (le_refl _)
  have hpv : parseValue ((printJson (Json.arr items) 0).length + 1)
      (printJson (Json.arr items) 0) = some (Json.arr items, []) := by
    have h2 := (parse_print ((printJson (Json.arr items) 0).length + 1)).1 (Json.arr items) 0 []
      (by omega) True.intro
    rwa [List.append_nil] at h2
  have hdata : (stringifyIndent2 (Json.arr items)).data = printJson (Json.arr items) 0 := rfl
  simp only [parseJson, hdata, hpv]
  rfl

end DWG
